import Mathlib

/-!
# Verification of the anthropic-proxy routing core

A shallow embedding, in Lean 4, of the routing, transcoding, retry and
metric components of the anthropic-proxy gateway, together with proofs
about them.

Conventions used throughout:

* Go `string` values are modelled by Lean `String` (and, for the glob
  matcher which walks strings character by character, by `List Char`).
* Go `float64` is modelled by `ℚ`; Go `int` by `ℤ` (or `ℕ` where the
  source value is a count that is never negative).
* Untyped JSON values (`interface{}` holding the result of
  `json.Unmarshal`) are modelled by the inductive type `Json` below,
  mirroring the runtime cases `nil`, `bool`, `float64`, `string`,
  `[]interface{}`, `map[string]interface{}`.
* Functions that in Go parse raw bytes and then operate on the parsed
  structure are embedded at the structure level: JSON (de)serialization
  at the outer boundary is treated as the identity on parsed values.
  Where a function re-serializes a structure and another re-parses it,
  the marshalling is modelled explicitly (`anthropicStreamEventToJson`)
  following the Go struct tags.
-/

namespace AnthropicProxy

/-- Model of a parsed JSON value (`interface{}` after `json.Unmarshal`).
Numbers are modelled as integers: every number the proxy inspects is a
token count that Go converts with `int(x)`, and no claim depends on a
fractional value. Objects are association lists in key order. -/
inductive Json where
  | null : Json
  | bool : Bool → Json
  | num : Int → Json
  | str : String → Json
  | arr : List Json → Json
  | obj : List (String × Json) → Json
deriving Inhabited

/-- Go map indexing `m["k"]`: the zero `interface{}` (here `Json.null`)
when the key is absent, which fails every type assertion exactly like an
explicit JSON `null`. First binding wins (parsed Go maps have no
duplicate keys). -/
def jlookup (kvs : List (String × Json)) (k : String) : Json :=
  match kvs.find? (fun p => p.1 == k) with
  | some p => p.2
  | none => Json.null

/-- Go type assertion `v.(string)`. -/
def Json.asStr : Json → Option String
  | Json.str s => some s
  | _ => none

/-- Go type assertion `v.(float64)` followed by `int(·)` where used;
on our integer-valued model the truncation is the identity. -/
def Json.asNum : Json → Option Int
  | Json.num n => some n
  | _ => none

/-- Go type assertion `v.(map[string]interface{})`. -/
def Json.asObj : Json → Option (List (String × Json))
  | Json.obj kvs => some kvs
  | _ => none

/-- Go type assertion `v.([]interface{})`. -/
def Json.asArr : Json → Option (List Json)
  | Json.arr xs => some xs
  | _ => none

/-!
## Stream token extraction (src/proxy/stream.go, `extractStreamTokens`)
-/

/-- `extractStreamTokens` from src/proxy/stream.go lines 250-273.
`len(text)` is the UTF-8 byte length of the Go string; `len(text) / 4`
is Go integer division (floor, as the length is non-negative). -/
def extractStreamTokens (eventData : List (String × Json)) : Int :=
  match (jlookup eventData "type").asStr with
  | some eventType =>
    match (if eventType = "content_block_delta" then
             ((jlookup eventData "delta").asObj.bind
               fun delta => (jlookup delta "text").asStr)
           else none) with
    | some text => Int.ofNat (text.utf8ByteSize / 4)
    | none =>
      match (if eventType = "message_delta" then
               ((jlookup eventData "usage").asObj.bind
                 fun usage => (jlookup usage "output_tokens").asNum)
             else none) with
      | some outputTokens => outputTokens
      | none => 0
  | none => 0

/-!
## Transform data types (src/unnamed/part_009, types.go section)

Field defaults are the Go zero values, so a structure literal that sets
only some fields mirrors a Go composite literal.
-/

/-- `OpenAIMessage` (transform types). `content` is `interface{}`. -/
structure OpenAIMessage where
  role : String := ""
  content : Json := Json.null
  name : String := ""
  toolCalls : List Json := []
  toolCallID : String := ""
deriving Inhabited

/-- `OpenAIChoice` (transform types). -/
structure OpenAIChoice where
  index : Int := 0
  message : OpenAIMessage := {}
  finishReason : String := ""
deriving Inhabited

/-- `OpenAIUsage` (transform types). -/
structure OpenAIUsage where
  promptTokens : Int := 0
  completionTokens : Int := 0
  totalTokens : Int := 0
deriving Inhabited

/-- `OpenAIResponse` (transform types). -/
structure OpenAIResponse where
  id : String := ""
  object : String := ""
  created : Int := 0
  model : String := ""
  choices : List OpenAIChoice := []
  usage : OpenAIUsage := {}
  systemFingerprint : String := ""
deriving Inhabited

/-- `AnthropicContentBlock` (transform types). `input` is a Go map that
is `nil` when unset, hence the `Option`. -/
structure AnthropicContentBlock where
  type : String := ""
  text : String := ""
  id : String := ""
  name : String := ""
  input : Option (List (String × Json)) := none
deriving Inhabited

/-- `AnthropicUsage` (transform types). -/
structure AnthropicUsage where
  inputTokens : Int := 0
  outputTokens : Int := 0
deriving Inhabited

/-- `AnthropicResponse` (transform types). `content` is a Go slice that
is `nil` until assigned, hence the `Option`. -/
structure AnthropicResponse where
  id : String := ""
  type : String := ""
  role : String := ""
  content : Option (List AnthropicContentBlock) := none
  model : String := ""
  stopReason : String := ""
  stopSequence : String := ""
  usage : AnthropicUsage := {}
deriving Inhabited

/-- `OpenAIStreamDelta` (transform types). -/
structure OpenAIStreamDelta where
  role : String := ""
  content : Json := Json.null
deriving Inhabited

/-- `OpenAIStreamChoice` (transform types); `finish_reason` is a
`*string`, hence the `Option`. -/
structure OpenAIStreamChoice where
  index : Int := 0
  delta : OpenAIStreamDelta := {}
  finishReason : Option String := none
deriving Inhabited

/-- `OpenAIStreamChunk` (transform types). -/
structure OpenAIStreamChunk where
  id : String := ""
  object : String := ""
  created : Int := 0
  model : String := ""
  choices : List OpenAIStreamChoice := []
deriving Inhabited

/-- `AnthropicDelta` (transform types). -/
structure AnthropicDelta where
  type : String := ""
  text : String := ""
  stopReason : String := ""
  stopSequence : String := ""
deriving Inhabited

/-- `AnthropicStreamEvent` (transform types); the pointer-valued fields
are `Option`. -/
structure AnthropicStreamEvent where
  type : String := ""
  message : Option AnthropicResponse := none
  index : Int := 0
  contentBlock : Option AnthropicContentBlock := none
  delta : Option AnthropicDelta := none
  usage : Option AnthropicUsage := none
deriving Inhabited

/-!
## Text extraction helpers (src/unnamed/part_009, response.go section)
-/

/-- The Go idiom `if v, ok := j.(string); ok && v != ""`. -/
def nonEmptyStr (j : Json) : Option String :=
  match j.asStr with
  | some s => if s ≠ "" then some s else none
  | none => none

/-- `extractTextFromMap`: the "text" key, else the "content" key, else
`input.text`, else `""`. A `nil` map and an empty map behave alike
(every lookup misses), so both are the empty association list here. -/
def extractTextFromMap (block : List (String × Json)) : String :=
  match nonEmptyStr (jlookup block "text") with
  | some text => text
  | none =>
    match nonEmptyStr (jlookup block "content") with
    | some content => content
    | none =>
      match (jlookup block "input").asObj with
      | some inner =>
        match nonEmptyStr (jlookup inner "text") with
        | some text => text
        | none => ""
      | none => ""

/-- `extractTextFromContentPart`. -/
def extractTextFromContentPart (part : Json) : String :=
  match part.asObj with
  | some block => extractTextFromMap block
  | none => ""

/-- `ExtractOpenAIText`: normalizes OpenAI content (string, array of
blocks, or single block) into plain text segments. The Go `default`
branch re-marshals the value and tries to decode it as `[]map` and then
`map`; on the remaining runtime cases (`nil`, `bool`, `float64`) both
decodes fail, so the branch contributes no segments. -/
def ExtractOpenAIText (content : Json) : List String :=
  match content with
  | Json.str v => if v ≠ "" then [v] else []
  | Json.arr parts =>
    parts.filterMap fun part =>
      let text := extractTextFromContentPart part
      if text ≠ "" then some text else none
  | Json.obj block =>
    let text := extractTextFromMap block
    if text ≠ "" then [text] else []
  | _ => []

/-- `joinTextSegments`: concatenation of the segments. -/
def joinTextSegments (segments : List String) : String :=
  segments.foldl (fun acc s => acc ++ s) ""

/-- `openAIContentToTextBlocks`: one `text` content block per segment
(the Go `nil` result for no segments and the caller's `nil → []`
normalization both collapse to `[]` in the list model). -/
def openAIContentToTextBlocks (content : Json) : List AnthropicContentBlock :=
  (ExtractOpenAIText content).map fun text =>
    { type := "text", text := text }

/-- `getString`. -/
def getString (m : List (String × Json)) (key : String) : String :=
  match (jlookup m key).asStr with
  | some val => val
  | none => ""

/-- `getToolCallID`; `time.Now().UnixNano()` is modelled by the explicit
`now` parameter. -/
def getToolCallID (toolCallMap : List (String × Json)) (now : Int) : String :=
  match (jlookup toolCallMap "id").asStr with
  | some id => id
  | none => "toolu_" ++ toString now

/-- The `json.Unmarshal([]byte(argsStr), &argsMap)` call inside the
tool-call branch of `OpenAIToAnthropicResponse` parses a JSON *text*
(the OpenAI `arguments` string) into a map. The stdlib text parser is
not embedded; this model makes the parse fail, leaving `input` unset.
No claim in this development examines tool-call arguments. -/
def parseArgumentsObj (_argsStr : String) : Option (List (String × Json)) :=
  none

/-!
## OpenAI → Anthropic response (src/unnamed/part_009 lines 11-92)
-/

/-- The tool-call loop of `OpenAIToAnthropicResponse`: each entry that
is an object with an object-valued `function` key becomes a `tool_use`
block; other entries are skipped (`continue`). -/
def toolCallsToBlocks (toolCalls : List Json) (now : Int) : List AnthropicContentBlock :=
  toolCalls.filterMap fun toolCall =>
    match toolCall.asObj with
    | none => none
    | some toolCallMap =>
      match (jlookup toolCallMap "function").asObj with
      | none => none
      | some functionData =>
        some { type := "tool_use"
               id := getToolCallID toolCallMap now
               name := getString functionData "name"
               input :=
                 match (jlookup functionData "arguments").asStr with
                 | some argsStr => parseArgumentsObj argsStr
                 | none => none }

/-- The `finish_reason` switch of `OpenAIToAnthropicResponse`. -/
def mapFinishReason (finishReason : String) : String :=
  match finishReason with
  | "stop" => "end_turn"
  | "length" => "max_tokens"
  | "content_filter" => "stop_sequence"
  | "tool_calls" => "tool_use"
  | _ => "end_turn"

/-- `OpenAIToAnthropicResponse` (src/unnamed/part_009 lines 11-92),
embedded at the structure level: the JSON decode of the upstream body
and the final encode are the identity on parsed values.
`time.Now().UnixNano()` (used only for fallback tool-call ids) is the
explicit `now` parameter. -/
def OpenAIToAnthropicResponse (openaiResp : OpenAIResponse) (model : String)
    (now : Int) : AnthropicResponse :=
  let base : AnthropicResponse :=
    { id := openaiResp.id
      type := "message"
      role := "assistant"
      model := model
      usage := { inputTokens := openaiResp.usage.promptTokens
                 outputTokens := openaiResp.usage.completionTokens } }
  match openaiResp.choices with
  | [] => base
  | choice :: _ =>
    let contentBlocks := openAIContentToTextBlocks choice.message.content
    let contentBlocks :=
      if choice.message.toolCalls.length > 0 then
        contentBlocks ++ toolCallsToBlocks choice.message.toolCalls now
      else contentBlocks
    { base with
        content := some contentBlocks
        stopReason := mapFinishReason choice.finishReason }

/-!
## OpenAI → Anthropic streaming (src/unnamed/part_009 lines 95-199)

The Go function marshals each produced event to a JSON string; here the
events are returned as structures, and `anthropicStreamEventToJson`
below models the marshalling for the consumer that re-parses them.
-/

/-- The `message_start` event built for the first chunk with a role. -/
def messageStartEvent (chunkId model : String) : AnthropicStreamEvent :=
  { type := "message_start"
    message := some { id := chunkId
                      type := "message"
                      role := "assistant"
                      model := model
                      usage := { inputTokens := 0, outputTokens := 0 } } }

/-- The `content_block_start` event (index 0, empty text block). -/
def contentBlockStartEvent : AnthropicStreamEvent :=
  { type := "content_block_start"
    index := 0
    contentBlock := some { type := "text", text := "" } }

/-- The `content_block_delta` event carrying a text delta. -/
def contentBlockDeltaEvent (textDelta : String) : AnthropicStreamEvent :=
  { type := "content_block_delta"
    index := 0
    delta := some { type := "text_delta", text := textDelta } }

/-- The `content_block_stop` event (index 0). -/
def contentBlockStopEvent : AnthropicStreamEvent :=
  { type := "content_block_stop", index := 0 }

/-- The `finish_reason` switch of the streaming converter: initial
value `"end_turn"`, explicit cases for `stop`, `length` and
`content_filter` only. -/
def mapStreamStopReason (finishReason : String) : String :=
  match finishReason with
  | "stop" => "end_turn"
  | "length" => "max_tokens"
  | "content_filter" => "stop_sequence"
  | _ => "end_turn"

/-- The `message_delta` event carrying the mapped stop reason and a
usage object with `output_tokens: 0`. -/
def messageDeltaEvent (stopReason : String) : AnthropicStreamEvent :=
  { type := "message_delta"
    delta := some { stopReason := stopReason }
    usage := some { inputTokens := 0, outputTokens := 0 } }

/-- The `message_stop` event. -/
def messageStopEvent : AnthropicStreamEvent :=
  { type := "message_stop" }

/-- `OpenAIStreamToAnthropicStream` (src/unnamed/part_009 lines
95-199), embedded at the structure level. The only error path of the
source is the JSON decode of the incoming chunk bytes, which sits
outside this model; on a parsed chunk the function always succeeds. -/
def OpenAIStreamToAnthropicStream (chunk : OpenAIStreamChunk) (model : String) :
    List AnthropicStreamEvent :=
  match chunk.choices with
  | [] => []
  | choice :: _ =>
    let roleEvents :=
      if choice.delta.role ≠ "" then
        [messageStartEvent chunk.id model, contentBlockStartEvent]
      else []
    let textDelta := joinTextSegments (ExtractOpenAIText choice.delta.content)
    let textEvents :=
      if textDelta ≠ "" then [contentBlockDeltaEvent textDelta] else []
    let finishEvents :=
      match choice.finishReason with
      | some finishReason =>
        if finishReason ≠ "" then
          [contentBlockStopEvent,
           messageDeltaEvent (mapStreamStopReason finishReason),
           messageStopEvent]
        else []
      | none => []
    roleEvents ++ textEvents ++ finishEvents

/-!
## Marshalling of Anthropic stream events (Go struct tags)

`handleOpenAIStream` re-parses each marshalled event string into a
`map[string]interface{}` before calling `extractStreamTokens`; these
functions model `json.Marshal` on the event structures, following the
`json:"...,omitempty"` tags of the transform types.
-/

/-- `json.Marshal` of `AnthropicUsage`: both fields always present. -/
def anthropicUsageToJson (u : AnthropicUsage) : Json :=
  Json.obj [("input_tokens", Json.num u.inputTokens),
            ("output_tokens", Json.num u.outputTokens)]

/-- `json.Marshal` of `AnthropicDelta`: every field `omitempty`. -/
def anthropicDeltaToJson (d : AnthropicDelta) : Json :=
  Json.obj <|
    (if d.type ≠ "" then [("type", Json.str d.type)] else []) ++
    (if d.text ≠ "" then [("text", Json.str d.text)] else []) ++
    (if d.stopReason ≠ "" then [("stop_reason", Json.str d.stopReason)] else []) ++
    (if d.stopSequence ≠ "" then [("stop_sequence", Json.str d.stopSequence)] else [])

/-- `json.Marshal` of `AnthropicContentBlock`: `type` always present,
the rest `omitempty` (a `nil` or empty `input` map is omitted). -/
def anthropicContentBlockToJson (b : AnthropicContentBlock) : Json :=
  Json.obj <|
    [("type", Json.str b.type)] ++
    (if b.text ≠ "" then [("text", Json.str b.text)] else []) ++
    (if b.id ≠ "" then [("id", Json.str b.id)] else []) ++
    (if b.name ≠ "" then [("name", Json.str b.name)] else []) ++
    (match b.input with
     | some [] => []
     | some kvs => [("input", Json.obj kvs)]
     | none => [])

/-- `json.Marshal` of `AnthropicResponse`: `stop_reason` and
`stop_sequence` are `omitempty`; `content` marshals a `nil` slice as
JSON `null`. -/
def anthropicResponseToJson (r : AnthropicResponse) : Json :=
  Json.obj <|
    [("id", Json.str r.id),
     ("type", Json.str r.type),
     ("role", Json.str r.role),
     ("content",
       match r.content with
       | some blocks => Json.arr (blocks.map anthropicContentBlockToJson)
       | none => Json.null),
     ("model", Json.str r.model)] ++
    (if r.stopReason ≠ "" then [("stop_reason", Json.str r.stopReason)] else []) ++
    (if r.stopSequence ≠ "" then [("stop_sequence", Json.str r.stopSequence)] else []) ++
    [("usage", anthropicUsageToJson r.usage)]

/-- `json.Marshal` of `AnthropicStreamEvent`: all fields but `type` are
`omitempty`; in particular the `int` field `index` is omitted when it
is 0, and the pointer fields are omitted when `nil`. -/
def anthropicStreamEventToJson (e : AnthropicStreamEvent) : Json :=
  Json.obj <|
    [("type", Json.str e.type)] ++
    (match e.message with
     | some m => [("message", anthropicResponseToJson m)]
     | none => []) ++
    (if e.index ≠ 0 then [("index", Json.num e.index)] else []) ++
    (match e.contentBlock with
     | some b => [("content_block", anthropicContentBlockToJson b)]
     | none => []) ++
    (match e.delta with
     | some d => [("delta", anthropicDeltaToJson d)]
     | none => []) ++
    (match e.usage with
     | some u => [("usage", anthropicUsageToJson u)]
     | none => [])

/-!
## OpenAI stream token accumulation (src/proxy/stream.go)
-/

/-- One step of the `totalTokens` accumulation of `handleOpenAIStream`
(src/proxy/stream.go lines 217-238): the marshalled event string is
re-parsed into a map and fed to `extractStreamTokens`. -/
def streamEventTokens (event : AnthropicStreamEvent) : Int :=
  match (anthropicStreamEventToJson event).asObj with
  | some eventData => extractStreamTokens eventData
  | none => 0

/-- The `totalTokens` accumulation of `handleOpenAIStream`
(src/proxy/stream.go lines 171-247) over the successfully parsed
`data:` chunks of the upstream SSE stream. SSE line framing, the
`[DONE]` sentinel, chunks whose JSON fails to parse, and the writes to
the client are outside the token count and are not modelled. -/
def handleOpenAIStreamTokens (chunks : List OpenAIStreamChunk) (model : String) : Int :=
  chunks.foldl
    (fun totalTokens chunk =>
      (OpenAIStreamToAnthropicStream chunk model).foldl
        (fun acc event => acc + streamEventTokens event) totalTokens)
    0

/-- The metric-recording step of `handleStreamingRequest`
(src/proxy/stream.go lines 94-107): the sample records `totalTokens`
when positive and the constant 100 otherwise. -/
def recordedStreamSampleTokens (totalTokens : Int) : Int :=
  if totalTokens > 0 then totalTokens else 100

/-!
## Alias glob matcher (src/unnamed/part_017 lines 140-203)

The matcher walks Go strings byte by byte; it is embedded on
`List Char`. All the string primitives it uses (`strings.Split`,
`HasPrefix`, `HasSuffix`, `TrimPrefix`, `TrimSuffix`, `Index`) are
modelled below with Go's semantics.
-/

/-- `strings.Split(s, sep)` for a one-character separator: the list of
segments between occurrences of `sep`; always non-empty. -/
def goSplit : List Char → Char → List (List Char)
  | [], _ => [[]]
  | c :: rest, sep =>
    if c = sep then [] :: goSplit rest sep
    else
      match goSplit rest sep with
      | [] => [[c]]
      | p :: ps => (c :: p) :: ps

/-- `strings.TrimPrefix(s, pre)`: drop `pre` when it is a prefix,
otherwise return `s` unchanged. -/
def goTrimPre (s pre : List Char) : List Char :=
  if pre.isPrefixOf s then s.drop pre.length else s

/-- `strings.TrimSuffix(s, suf)`: drop `suf` when it is a suffix,
otherwise return `s` unchanged. -/
def goTrimSuf (s suf : List Char) : List Char :=
  if suf.isSuffixOf s then s.take (s.length - suf.length) else s

/-- `strings.Index(s, sub)`: the least index at which `sub` occurs in
`s` (`none` models Go's `-1`). The text is the second argument so that
the recursion is structural. -/
def goIndexOf (sub : List Char) : List Char → Option Nat
  | [] => if sub.isPrefixOf ([] : List Char) then some 0 else none
  | c :: rest =>
    if sub.isPrefixOf (c :: rest) then some 0
    else (goIndexOf sub rest).map (· + 1)

/-- The middle-segment loop of `matchWildcard` (part_017 lines
191-200): empty segments are skipped (`continue`); a non-empty segment
must occur in the remaining text, and the search resumes after it. -/
def matchMiddles : List (List Char) → List Char → Bool
  | [], _ => true
  | part :: parts, text =>
    if part = [] then matchMiddles parts text
    else
      match goIndexOf part text with
      | none => false
      | some idx => matchMiddles parts (text.drop (idx + part.length))

/-- `matchWildcard` (part_017 lines 168-203). The Go conditions
`parts[0] != "" && !HasPrefix(...)` are rendered as decidable
conjunctions. -/
def matchWildcard (pattern text : List Char) : Bool :=
  let parts := goSplit pattern '*'
  if parts.length = 1 then pattern == text
  else
    let first := parts.headD []
    if first ≠ [] ∧ ¬ first.isPrefixOf text then false
    else
      let text1 := goTrimPre text first
      let lastSeg := parts.getLastD []
      if lastSeg ≠ [] ∧ ¬ lastSeg.isSuffixOf text1 then false
      else
        let text2 := goTrimSuf text1 lastSeg
        matchMiddles ((parts.drop 1).dropLast) text2

/-- `MatchAlias` (part_017 lines 140-165): exact equality when the
pattern has no `*`, two fast paths for a single leading or trailing
`*`, and `matchWildcard` for everything else. -/
def MatchAlias (aliasPattern requestedName : List Char) : Bool :=
  if ¬ aliasPattern.contains '*' then aliasPattern == requestedName
  else
    let parts := goSplit aliasPattern '*'
    if ['*'].isSuffixOf aliasPattern ∧ parts.length = 2 ∧ parts.getD 1 [] = [] then
      (parts.getD 0 []).isPrefixOf requestedName
    else if ['*'].isPrefixOf aliasPattern ∧ parts.length = 2 ∧ parts.getD 0 [] = [] then
      (parts.getD 1 []).isSuffixOf requestedName
    else matchWildcard aliasPattern requestedName

/-- `MatchAlias` on Go strings (used by the model registry). -/
def MatchAliasS (aliasPattern requestedName : String) : Bool :=
  MatchAlias aliasPattern.data requestedName.data

/-!
### Declarative glob semantics

`coversInOrder parts u` says the segments of `parts` occupy disjoint
portions of `u`, in order. `aliasGlobSem` is the declarative reading of
the glob rule: the name decomposes as first segment, a remainder
covering the middle segments in order without overlap, then the last
segment. `claimedAliasMatch` is the glob rule exactly as the claim
words it — prefix and suffix tested on the whole name — kept separate
so the two readings can be compared against the implementation.
-/

/-- Disjoint in-order occurrence of a list of segments in a text. -/
def coversInOrder : List (List Char) → List Char → Prop
  | [], _ => True
  | part :: parts, text =>
    ∃ pre post, text = pre ++ part ++ post ∧ coversInOrder parts post

/-- The segments of a pattern: `strings.Split(pattern, "*")`. -/
def patParts (pattern : List Char) : List (List Char) := goSplit pattern '*'

/-- First segment of the pattern. -/
def patFirst (pattern : List Char) : List Char := (patParts pattern).headD []

/-- Last segment of the pattern. -/
def patLast (pattern : List Char) : List Char := (patParts pattern).getLastD []

/-- Middle segments of the pattern (all but the first and last). -/
def patMiddles (pattern : List Char) : List (List Char) :=
  ((patParts pattern).drop 1).dropLast

/-- Declarative glob semantics: without `*`, strict equality; with `*`,
the name splits as first segment ++ remainder ++ last segment, the
remainder covering the middle segments in order without overlap. -/
def aliasGlobSem (pattern name : List Char) : Prop :=
  if pattern.contains '*' then
    ∃ u, name = patFirst pattern ++ u ++ patLast pattern ∧
      coversInOrder (patMiddles pattern) u
  else name = pattern

/-- The glob rule as the claim states it: the name starts with the
first segment, ends with the last segment, and contains every middle
segment in order without overlap (prefix and suffix tested on the whole
name, so the first and last segments may overlap each other). -/
def claimedAliasMatch (pattern name : List Char) : Prop :=
  if pattern.contains '*' then
    (patFirst pattern).isPrefixOf name = true ∧
    (patLast pattern).isSuffixOf name = true ∧
    coversInOrder (patMiddles pattern) name
  else name = pattern

/-!
## Router data model

`config.Model` (src/config/config.go lines 33-48), the router-relevant
fields of `provider.Provider` (src/provider/provider.go lines 16-22),
and `router.ProviderChoice` (src/unnamed/part_006 lines 298-304).
-/

/-- `config.Model`. -/
structure Model where
  name : String := ""
  «alias» : String := ""
  context : Int := 0
  provider : String := ""
  weight : Int := 0
  thinking : Bool := false
deriving Inhabited, DecidableEq

/-- `Model.GetWeight` (src/config/config.go lines 43-48): default 1
when the configured weight is not positive. -/
def Model.getWeight (m : Model) : Int :=
  if m.weight ≤ 0 then 1 else m.weight

/-- `provider.Provider` without the owned HTTP client handle. -/
structure Provider where
  name : String := ""
  type : String := ""
  endpoint : String := ""
  apiKey : String := ""
deriving Inhabited, DecidableEq

/-- `router.ProviderChoice`. -/
structure ProviderChoice where
  provider : Provider
  model : Model
  weight : Int
  tps : ℚ
  actualModel : String
deriving Inhabited, DecidableEq

/-- `Registry.FindMatching` (src/unnamed/part_017 lines 52-78): exact
name matches first; only when there are none, alias (glob) matches.
The two Go accumulation loops are the two filters. -/
def FindMatching (models : List Model) (requestedName : String) : List Model :=
  let exact := models.filter fun m => m.name == requestedName
  if exact.length > 0 then exact
  else models.filter fun m => m.«alias» != "" && MatchAliasS m.«alias» requestedName

/-- The errors `SelectProviders` can return (src/unnamed/part_006
lines 8-12). -/
inductive SelectError where
  | noModelFound
  | noProvidersAvailable
deriving Inhabited, DecidableEq

/-- The state a `Selector` reads: the model registry in insertion
order, `provider.Manager.Get`, `metrics.Tracker.GetTPS`, and the TPS
threshold. -/
structure Selector where
  models : List Model
  providers : String → Option Provider
  trackerTPS : String → String → ℚ
  tpsThreshold : ℚ

/-- The thinking filter of `SelectProviders` (part_006 lines 222-237):
narrow to thinking-capable entries, falling back to the unfiltered set
when none qualify. -/
def thinkingFilter (matchingModels : List Model) (thinkingEnabled : Bool) : List Model :=
  if thinkingEnabled then
    let thinkingModels := matchingModels.filter fun m => m.thinking
    if thinkingModels.length > 0 then thinkingModels else matchingModels
  else matchingModels

/-- The materialization loop of `SelectProviders` (part_006 lines
243-267): entries whose provider is absent are dropped (`continue`);
each surviving entry yields a choice carrying its weight and the
tracked TPS. -/
def materializeChoices (s : Selector) (matchingModels : List Model) :
    List ProviderChoice :=
  matchingModels.filterMap fun modelConfig =>
    match s.providers modelConfig.provider with
    | none => none
    | some prov =>
      some { provider := prov
             model := modelConfig
             weight := modelConfig.getWeight
             tps := s.trackerTPS prov.name modelConfig.name
             actualModel := modelConfig.name }

/-- The threshold predicate of part_006 line 264: TPS 0 (no data yet)
or TPS at or above the threshold. In the source `goodChoices` is
accumulated in the same loop that builds `allChoices`; that
accumulation is exactly this filter of the materialized list. -/
def goodFilter (s : Selector) (choices : List ProviderChoice) : List ProviderChoice :=
  choices.filter fun c => decide (c.tps = 0 ∨ c.tps ≥ s.tpsThreshold)

/-- The comparison closure given to `sort.Slice` (part_006 lines
285-292): weight descending, then TPS descending. -/
def choiceLess (a b : ProviderChoice) : Prop :=
  if a.weight ≠ b.weight then a.weight > b.weight else a.tps > b.tps

instance choiceLess.decRel : DecidableRel choiceLess := fun a b => by
  unfold choiceLess
  infer_instance

/-- `a` may come at or before `b` under the `sort.Slice` comparison. -/
def choiceOrder (a b : ProviderChoice) : Prop := ¬ choiceLess b a

instance choiceOrder.decRel : DecidableRel choiceOrder := fun a b => by
  unfold choiceOrder
  infer_instance

theorem not_choiceLess_iff (x y : ProviderChoice) :
    ¬ choiceLess x y
    ↔ (x.weight < y.weight ∨ (x.weight = y.weight ∧ x.tps ≤ y.tps)) := by
  unfold choiceLess
  split_ifs with h
  · rw [not_lt]
    constructor
    · intro hle
      exact Or.inl (lt_of_le_of_ne hle h)
    · rintro (hlt | ⟨heq, -⟩)
      · exact le_of_lt hlt
      · exact absurd heq h
  · have heq : x.weight = y.weight := of_not_not h
    rw [not_lt]
    constructor
    · intro hle
      exact Or.inr ⟨heq, hle⟩
    · rintro (hlt | ⟨-, hle⟩)
      · exact absurd (heq ▸ hlt) (lt_irrefl _)
      · exact hle

instance choiceOrder.total : IsTotal ProviderChoice choiceOrder := by
  constructor
  intro a b
  rw [choiceOrder, choiceOrder, not_choiceLess_iff, not_choiceLess_iff]
  rcases lt_trichotomy a.weight b.weight with h | h | h
  · exact Or.inr (Or.inl h)
  · rcases le_total b.tps a.tps with ht | ht
    · exact Or.inl (Or.inr ⟨h.symm, ht⟩)
    · exact Or.inr (Or.inr ⟨h, ht⟩)
  · exact Or.inl (Or.inl h)

instance choiceOrder.trans : IsTrans ProviderChoice choiceOrder := by
  constructor
  intro a b c hab hbc
  rw [choiceOrder, not_choiceLess_iff] at hab hbc ⊢
  rcases hab with h1 | ⟨h1, t1⟩ <;> rcases hbc with h2 | ⟨h2, t2⟩
  · exact Or.inl (lt_trans h2 h1)
  · exact Or.inl (h2 ▸ h1)
  · exact Or.inl (h1 ▸ h2)
  · exact Or.inr ⟨h2.trans h1, t2.trans t1⟩

/-- Model of `sort.Slice(choices, less)` (part_006 lines 285-292).
`sort.Slice` runs the Go standard library's pdqsort, which sorts any
slice of fewer than 12 elements purely by insertion sort with the given
comparison, and in general guarantees a permutation of the input that
is sorted under the comparison (it is deterministic, but not documented
to be stable on longer slices). The embedding is the standard
functional insertion sort with the same comparison, which realizes that
sorted-permutation contract. -/
def sortChoices (choices : List ProviderChoice) : List ProviderChoice :=
  List.insertionSort choiceOrder choices

/-- `Selector.SelectProviders` (src/unnamed/part_006 lines 213-295). -/
def SelectProviders (s : Selector) (requestedModel : String)
    (thinkingEnabled : Bool) : Except SelectError (List ProviderChoice) :=
  let matchingModels := FindMatching s.models requestedModel
  if matchingModels.length = 0 then Except.error SelectError.noModelFound
  else
    let narrowed := thinkingFilter matchingModels thinkingEnabled
    let allChoices := materializeChoices s narrowed
    let goodChoices := goodFilter s allChoices
    if allChoices.length = 0 then Except.error SelectError.noProvidersAvailable
    else
      let choices := if goodChoices.length > 0 then goodChoices else allChoices
      Except.ok (sortChoices choices)

/-!
## Same-provider retry (src/retry/retry.go, src/provider/client.go)
-/

/-- `retry.Config` (retry.go lines 11-16). Durations (`time.Duration`)
and the multiplier (`float64`) are rationals, in milliseconds;
`maxRetries` is the non-negative loop bound. -/
structure RetryConfig where
  maxRetries : Nat
  initialDelay : ℚ
  maxDelay : ℚ
  backoffMultiplier : ℚ
deriving DecidableEq, Inhabited

/-- `retry.DefaultConfig()` (retry.go lines 19-26): 3 retries, 100 ms
initial delay, 5 s cap, multiplier 2. -/
def defaultRetryConfig : RetryConfig :=
  { maxRetries := 3, initialDelay := 100, maxDelay := 5000, backoffMultiplier := 2 }

/-- The backoff delay slept after the (0-indexed) failed attempt
`attempt` (retry.go lines 59-63):
`initial_delay · multiplier ^ attempt`, capped at `max_delay`. -/
def backoffDelay (config : RetryConfig) (attempt : Nat) : ℚ :=
  let delay := config.initialDelay * config.backoffMultiplier ^ attempt
  if delay > config.maxDelay then config.maxDelay else delay

/-- How a run of `retry.Do` ends. -/
inductive RetryOutcome where
  | success
  | ctxError
  | maxRetriesExceeded
deriving DecidableEq, Inhabited

/-- What a run of `retry.Do` did: its result, the number of times it
executed `fn`, and the backoff sleeps it completed, in order. -/
structure RetryTrace where
  outcome : RetryOutcome
  attemptsUsed : Nat
  sleeps : List ℚ
deriving DecidableEq, Inhabited

/-- The loop of `retry.Do` (retry.go lines 38-72), from attempt index
`attempt` with `left` further attempts allowed after the current one
(`left = 0` is the `attempt == config.MaxRetries` case that breaks
without sleeping). The context and the closure are oracles:
`fnFails n` says whether the n-th invocation of `fn` returns an error,
`cancelledBefore n` whether the context is done at the check opening
iteration n, and `cancelledInSleep n` whether cancellation interrupts
the backoff sleep after attempt n (an interrupted sleep is not recorded
in `sleeps`). -/
def retryDoAux (config : RetryConfig)
    (fnFails cancelledBefore cancelledInSleep : Nat → Bool) :
    Nat → Nat → RetryTrace
  | attempt, left =>
    if cancelledBefore attempt then
      { outcome := RetryOutcome.ctxError, attemptsUsed := 0, sleeps := [] }
    else if fnFails attempt = false then
      { outcome := RetryOutcome.success, attemptsUsed := 1, sleeps := [] }
    else
      match left with
      | 0 => { outcome := RetryOutcome.maxRetriesExceeded, attemptsUsed := 1, sleeps := [] }
      | left' + 1 =>
        if cancelledInSleep attempt then
          { outcome := RetryOutcome.ctxError, attemptsUsed := 1, sleeps := [] }
        else
          let rest := retryDoAux config fnFails cancelledBefore cancelledInSleep
            (attempt + 1) left'
          { outcome := rest.outcome
            attemptsUsed := 1 + rest.attemptsUsed
            sleeps := backoffDelay config attempt :: rest.sleeps }

/-- `retry.Do` (src/retry/retry.go lines 32-75): the loop starting at
attempt 0 with `config.maxRetries` further attempts allowed. -/
def retryDo (config : RetryConfig)
    (fnFails cancelledBefore cancelledInSleep : Nat → Bool) : RetryTrace :=
  retryDoAux config fnFails cancelledBefore cancelledInSleep 0 config.maxRetries

/-- `retry.IsRetriable` (retry.go lines 78-87): transport error
(status 0), 429, or any 5xx. -/
def IsRetriable (statusCode : Int) : Bool :=
  statusCode == 0 || statusCode == 429
    || (decide (500 ≤ statusCode) && decide (statusCode < 600))

/-- The retried closure of `Client.ProxyRequestWithRetry`
(src/provider/client.go lines 119-146): one upstream attempt fails (and
is handed back to `retry.Do` as an error) exactly when the transport
fails (`none`) or the status code is retriable; any other status is
accepted as the response. -/
def attemptFails (statuses : Nat → Option Int) (attempt : Nat) : Bool :=
  match statuses attempt with
  | none => true
  | some status => IsRetriable status

/-- `Client.ProxyRequestWithRetry` (client.go lines 114-153): runs
`retry.Do` over `attemptFails`; on success the response status of the
last (successful) attempt is returned, on any error `none` (the caller
then classifies and moves to the next candidate). -/
def ProxyRequestWithRetry (config : RetryConfig) (statuses : Nat → Option Int)
    (cancelledBefore cancelledInSleep : Nat → Bool) : Option Int × RetryTrace :=
  let trace := retryDo config (attemptFails statuses) cancelledBefore cancelledInSleep
  match trace.outcome with
  | RetryOutcome.success => (statuses (trace.attemptsUsed - 1), trace)
  | _ => (none, trace)

/-!
## TPS metric cache (src/metrics/errors.go, cache section)
-/

/-- `metrics.Sample` (errors.go lines 253-258); the timestamp is an
abstract instant. -/
structure Sample where
  tps : ℚ
  tokens : Int
  durationS : ℚ
  timestamp : Int
deriving DecidableEq, Inhabited

/-- `metrics.MetricData` (errors.go lines 244-250). -/
structure MetricData where
  providerName : String := ""
  modelName : String := ""
  tps : ℚ := 0
  samples : List Sample := []
  maxSamples : Nat := 0
deriving DecidableEq, Inhabited

/-- `makeKey` (errors.go lines 358-360). -/
def makeKey (providerName modelName : String) : String :=
  providerName ++ ":" ++ modelName

/-- The `data` map of `metrics.Cache` (errors.go lines 238-241). -/
def MetricCache := String → Option MetricData

/-- `NewCache()`: the empty map. -/
def emptyMetricCache : MetricCache := fun _ => none

/-- `calculateAverageTPS` (errors.go lines 363-373). -/
def calculateAverageTPS (samples : List Sample) : ℚ :=
  if samples.length = 0 then 0
  else (samples.map Sample.tps).sum / (samples.length : ℚ)

/-- `Cache.GetTPS` (errors.go lines 268-277): the cached mean, 0 when
the key is absent. -/
def GetTPS (c : MetricCache) (providerName modelName : String) : ℚ :=
  match c (makeKey providerName modelName) with
  | some data => data.tps
  | none => 0

/-- `Cache.UpdateTPS` (errors.go lines 280-321): the sample TPS is
`tokens/duration` (0 unless the duration is positive); the sample is
appended to the per-key ring, the oldest entries beyond `maxSamples`
(5, fixed at creation) are evicted, and the cached mean is recomputed.
`time.Now()` is the `now` parameter. -/
def UpdateTPS (c : MetricCache) (providerName modelName : String)
    (tokens : Int) (durationS : ℚ) (now : Int) : MetricCache :=
  let key := makeKey providerName modelName
  let tps : ℚ := if durationS > 0 then (tokens : ℚ) / durationS else 0
  let sample : Sample :=
    { tps := tps, tokens := tokens, durationS := durationS, timestamp := now }
  let data :=
    match c key with
    | some d => d
    | none => { providerName := providerName, modelName := modelName,
                samples := [], maxSamples := 5 }
  let samples := data.samples ++ [sample]
  let samples :=
    if samples.length > data.maxSamples
    then samples.drop (samples.length - data.maxSamples) else samples
  let newData := { data with samples := samples, tps := calculateAverageTPS samples }
  fun k => if k = key then some newData else c k

/-!
## Non-streaming dispatch to an OPENAI-format provider
-/

/-- Modelled from the spec: the current non-streaming dispatcher is not
present under src/ — the handler in src/unnamed/part_021 is an earlier
revision (it predates response transcoding and no longer matches the
signatures of src/proxy/stream.go or metrics.ErrorTracker). Per §4.2.2
of the spec: "If status is 2xx: when wire format is OPENAI, transcode
the response (§4.3) to Anthropic; ... forward status + relevant headers
+ body to the client." The §4.3 transcoder is the embedded
`OpenAIToAnthropicResponse` of src/unnamed/part_009, applied to the
originally requested model name. The result is the body forwarded to
the client, `none` when the status is not 2xx (that path records an
error and advances to the next candidate instead of forwarding). -/
def handleNonStreamingOpenAISuccess (status : Int) (upstream : OpenAIResponse)
    (requestedModel : String) (now : Int) : Option AnthropicResponse :=
  if 200 ≤ status ∧ status < 300 then
    some (OpenAIToAnthropicResponse upstream requestedModel now)
  else none

/-!
## Concrete instances used by witnesses and counterexamples
-/

/-- Scenario 4 of the spec: the upstream OpenAI body
`{"id":"c1","choices":[{"message":{"content":"hello"},
"finish_reason":"stop"}],"usage":{"prompt_tokens":1,
"completion_tokens":1}}`. -/
def exOpenAIResponse : OpenAIResponse :=
  { id := "c1"
    choices := [{ message := { content := Json.str "hello" }, finishReason := "stop" }]
    usage := { promptTokens := 1, completionTokens := 1 } }

/-- A stream chunk carrying only the three-byte text delta "abc". -/
def exChunkAbc : OpenAIStreamChunk :=
  { choices := [{ delta := { content := Json.str "abc" } }] }

/-- A stream chunk whose only content is `finish_reason:
"content_filter"`. -/
def exChunkContentFilter : OpenAIStreamChunk :=
  { choices := [{ finishReason := some "content_filter" }] }

/-- A chunk with an empty `choices` array (usage-only / keep-alive). -/
def exChunkEmpty : OpenAIStreamChunk := { id := "c1" }

/-- Weight beats TPS (spec scenario 1, with both candidates under the
threshold so that the fallback-to-all path is taken): two entries for
model X, weight 5 at 10 TPS and weight 1 at 20 TPS, threshold 40. -/
def exSelectorWeights : Selector :=
  { models := [ { name := "X", provider := "p1", weight := 5 },
                { name := "X", provider := "p2", weight := 1 } ]
    providers := fun n =>
      if n = "p1" then some { name := "p1" }
      else if n = "p2" then some { name := "p2" } else none
    trackerTPS := fun p _ => if p = "p1" then 10 else 20
    tpsThreshold := 40 }

/-- Scenario 2 of the spec (zero-TPS rescue): equal weights, TPS 0 and
35, threshold 40. -/
def exSelectorZeroTPS : Selector :=
  { models := [ { name := "X", provider := "p1", weight := 1 },
                { name := "X", provider := "p2", weight := 1 } ]
    providers := fun n =>
      if n = "p1" then some { name := "p1" }
      else if n = "p2" then some { name := "p2" } else none
    trackerTPS := fun p _ => if p = "p1" then 0 else 35
    tpsThreshold := 40 }

/-- A registry whose only thinking-capable entry points at an absent
provider, while a non-thinking entry for the same model has a live
provider. -/
def exSelectorThinking : Selector :=
  { models := [ { name := "X", provider := "p1", thinking := true },
                { name := "X", provider := "p2", thinking := false } ]
    providers := fun n => if n = "p2" then some { name := "p2" } else none
    trackerTPS := fun _ _ => 0
    tpsThreshold := 40 }

/-- A stream chunk whose only content is `finish_reason: "stop"`. -/
def exChunkFinishStop : OpenAIStreamChunk :=
  { choices := [{ finishReason := some "stop" }] }

/-- Per-chunk token contribution in closed form (the amended claim's
formula): the floor of a quarter of the UTF-8 byte length of the
chunk's joined text delta; chunks without choices contribute nothing.
-/
def chunkDeltaTokens (chunk : OpenAIStreamChunk) : Int :=
  match chunk.choices with
  | [] => 0
  | choice :: _ =>
    Int.ofNat ((joinTextSegments (ExtractOpenAIText choice.delta.content)).utf8ByteSize / 4)

/-- The per-key sample ring of a cache (empty when absent). -/
def ringOf (c : MetricCache) (providerName modelName : String) : List Sample :=
  match c (makeKey providerName modelName) with
  | some data => data.samples
  | none => []

/-- Cache well-formedness: every entry was created with `maxSamples=5`
and its ring holds at most 5 samples. -/
def MetricCacheWF (c : MetricCache) : Prop :=
  ∀ k data, c k = some data → data.maxSamples = 5 ∧ data.samples.length ≤ 5

/-- The sample `UpdateTPS` appends, in closed form: TPS is
`tokens/duration` when the duration is positive, else 0. -/
def specSample (tokens : Int) (dur : ℚ) (now : Int) : Sample :=
  { tps := if dur > 0 then (tokens : ℚ) / dur else 0
    tokens := tokens, durationS := dur, timestamp := now }

/-- The ring after a record, in closed form: append the new sample and
evict the oldest entries beyond capacity 5. -/
def specRingAfter (c : MetricCache) (providerName modelName : String)
    (tokens : Int) (dur : ℚ) (now : Int) : List Sample :=
  let base := ringOf c providerName modelName ++ [specSample tokens dur now]
  if base.length > 5 then base.drop (base.length - 5) else base

/-- Upstream behavior for the retry witness: a retriable 500 on the
first attempt, then 200. -/
def exStatuses (attempt : Nat) : Option Int :=
  if attempt = 0 then some 500 else some 200

/-- The materialized weight-5 candidate of `exSelectorWeights`. -/
def exChoiceP1 : ProviderChoice :=
  { provider := { name := "p1" }
    model := { name := "X", provider := "p1", weight := 5 }
    weight := 5, tps := 10, actualModel := "X" }

/-- The materialized weight-1 candidate of `exSelectorWeights`. -/
def exChoiceP2 : ProviderChoice :=
  { provider := { name := "p2" }
    model := { name := "X", provider := "p2", weight := 1 }
    weight := 1, tps := 20, actualModel := "X" }

/-- The sole surviving candidate of `exSelectorZeroTPS`. -/
def exChoiceZeroTPS : ProviderChoice :=
  { provider := { name := "p1" }
    model := { name := "X", provider := "p1", weight := 1 }
    weight := 1, tps := 0, actualModel := "X" }

/-!
### Glob matcher lemmas
-/

theorem goSplit_ne_nil (s : List Char) (sep : Char) : goSplit s sep ≠ [] := by
  match s with
  | [] => simp [goSplit]
  | c :: rest =>
    unfold goSplit
    by_cases h : c = sep
    · simp [h]
    · simp only [if_neg h]
      cases hs : goSplit rest sep <;> simp

theorem goSplit_length_ge_two {s : List Char} {sep : Char} (h : sep ∈ s) :
    2 ≤ (goSplit s sep).length := by
  induction s with
  | nil => cases h
  | cons c rest ih =>
    unfold goSplit
    by_cases hc : c = sep
    · simp only [if_pos hc, List.length_cons]
      have := List.length_pos.mpr (goSplit_ne_nil rest sep)
      omega
    · have hrest : sep ∈ rest := by
        cases List.mem_cons.mp h with
        | inl h' => exact absurd h'.symm hc
        | inr h' => exact h'
      simp only [if_neg hc]
      cases hs : goSplit rest sep with
      | nil => exact absurd hs (goSplit_ne_nil rest sep)
      | cons p ps =>
        have := ih hrest
        rw [hs] at this
        simpa using this

theorem goIndexOf_sound {sub s : List Char} {i : Nat}
    (h : goIndexOf sub s = some i) :
    ∃ pre post, s = pre ++ sub ++ post ∧ pre.length = i := by
  induction s generalizing i with
  | nil =>
    unfold goIndexOf at h
    split at h
    · next hp =>
      obtain rfl : (0 : Nat) = i := Option.some.inj h
      obtain ⟨t, ht⟩ := List.isPrefixOf_iff_prefix.mp hp
      exact ⟨[], t, by simp [← ht], rfl⟩
    · simp at h
  | cons c rest ih =>
    unfold goIndexOf at h
    split at h
    · next hp =>
      obtain rfl : (0 : Nat) = i := Option.some.inj h
      obtain ⟨t, ht⟩ := List.isPrefixOf_iff_prefix.mp hp
      exact ⟨[], t, by simp [← ht], rfl⟩
    · next hp =>
      rw [Option.map_eq_some'] at h
      obtain ⟨j, hj, rfl⟩ := h
      obtain ⟨pre, post, heq, hlen⟩ := ih hj
      exact ⟨c :: pre, post, by simp [heq], by simp [hlen]⟩

theorem goIndexOf_complete {sub pre post s : List Char}
    (h : s = pre ++ sub ++ post) :
    ∃ i, goIndexOf sub s = some i ∧ i ≤ pre.length := by
  induction pre generalizing s with
  | nil =>
    have hp : sub.isPrefixOf s = true := by
      refine List.isPrefixOf_iff_prefix.mpr ⟨post, ?_⟩
      simp [h]
    refine ⟨0, ?_, Nat.zero_le _⟩
    cases s with
    | nil => unfold goIndexOf; rw [if_pos hp]
    | cons c rest => unfold goIndexOf; rw [if_pos hp]
  | cons c pre' ih =>
    subst h
    have hassoc : (c :: pre') ++ sub ++ post = c :: (pre' ++ sub ++ post) := by simp
    rw [show ((c :: pre') ++ sub ++ post : List Char)
          = c :: (pre' ++ sub ++ post) from hassoc]
    unfold goIndexOf
    split
    · exact ⟨0, rfl, Nat.zero_le _⟩
    · obtain ⟨j, hj, hle⟩ := @ih (pre' ++ sub ++ post) rfl
      rw [hj]
      exact ⟨j + 1, rfl, by simpa using Nat.succ_le_succ hle⟩

theorem coversInOrder_extend {parts : List (List Char)} {post ext : List Char}
    (h : coversInOrder parts post) : coversInOrder parts (ext ++ post) := by
  cases parts with
  | nil => trivial
  | cons part parts =>
    obtain ⟨pre, post', heq, hc⟩ := h
    exact ⟨ext ++ pre, post', by simp [heq], hc⟩

theorem coversInOrder_of_suffix {parts : List (List Char)} {post t : List Char}
    (hsuf : post <:+ t) (h : coversInOrder parts post) : coversInOrder parts t := by
  obtain ⟨ext, rfl⟩ := hsuf
  exact coversInOrder_extend h

theorem matchMiddles_iff (parts : List (List Char)) (text : List Char) :
    matchMiddles parts text = true ↔ coversInOrder parts text := by
  induction parts generalizing text with
  | nil => simp [matchMiddles, coversInOrder]
  | cons part parts ih =>
    by_cases hp : part = []
    · subst hp
      rw [show matchMiddles ([] :: parts) text = matchMiddles parts text from rfl]
      rw [ih]
      constructor
      · intro h
        exact ⟨[], text, by simp, h⟩
      · rintro ⟨pre, post, rfl, hc⟩
        simpa using @coversInOrder_extend _ _ pre hc
    · have hstep : matchMiddles (part :: parts) text
          = match goIndexOf part text with
            | none => false
            | some idx => matchMiddles parts (text.drop (idx + part.length)) := by
        rw [show matchMiddles (part :: parts) text
              = if part = [] then matchMiddles parts text
                else match goIndexOf part text with
                  | none => false
                  | some idx => matchMiddles parts (text.drop (idx + part.length))
              from rfl,
            if_neg hp]
      cases hidx : goIndexOf part text with
      | none =>
        rw [hstep, hidx]
        refine iff_of_false (by simp) ?_
        rintro ⟨pre, post, heq, _⟩
        obtain ⟨i, hi, _⟩ := goIndexOf_complete heq
        rw [hidx] at hi
        cases hi
      | some i =>
        rw [hstep, hidx]
        rw [show (match some i with
              | none => false
              | some idx => matchMiddles parts (text.drop (idx + part.length)))
            = matchMiddles parts (text.drop (i + part.length)) from rfl]
        rw [ih]
        constructor
        · intro h
          obtain ⟨pre, post, heq, hlen⟩ := goIndexOf_sound hidx
          refine ⟨pre, post, heq, ?_⟩
          have hdrop : text.drop (i + part.length) = post := by
            rw [heq, ← hlen]
            rw [show pre ++ part ++ post = (pre ++ part) ++ post from by simp]
            rw [show pre.length + part.length = (pre ++ part).length from by simp]
            exact List.drop_left ..
          rwa [hdrop] at h
        · rintro ⟨pre, post, heq, hc⟩
          obtain ⟨i', hi', hle⟩ := goIndexOf_complete heq
          rw [hidx] at hi'
          obtain rfl : i = i' := Option.some.inj hi'
          have hdroppre : text.drop (pre.length + part.length) = post := by
            rw [heq]
            rw [show pre ++ part ++ post = (pre ++ part) ++ post from by simp]
            rw [show pre.length + part.length = (pre ++ part).length from by simp]
            exact List.drop_left ..
          have hsuf : post <:+ text.drop (i + part.length) := by
            rw [← hdroppre]
            rw [show pre.length + part.length
                  = (i + part.length) + (pre.length - i) from by omega]
            rw [← List.drop_drop]
            exact List.drop_suffix ..
          exact coversInOrder_of_suffix hsuf hc

theorem exists_decomp_iff (first lastSeg : List Char) (mids : List (List Char))
    (text : List Char) :
    (∃ u, text = first ++ u ++ lastSeg ∧ coversInOrder mids u)
    ↔ (first.isPrefixOf text = true ∧
        lastSeg.isSuffixOf (text.drop first.length) = true ∧
        coversInOrder mids
          ((text.drop first.length).take
            ((text.drop first.length).length - lastSeg.length))) := by
  constructor
  · rintro ⟨u, rfl, hc⟩
    have hdrop : (first ++ u ++ lastSeg).drop first.length = u ++ lastSeg := by
      rw [show first ++ u ++ lastSeg = first ++ (u ++ lastSeg) from by simp]
      exact List.drop_left ..
    refine ⟨List.isPrefixOf_iff_prefix.mpr ⟨u ++ lastSeg, by simp⟩, ?_, ?_⟩
    · rw [hdrop]
      exact List.isSuffixOf_iff_suffix.mpr ⟨u, rfl⟩
    · rw [hdrop]
      have : (u ++ lastSeg).length - lastSeg.length = u.length := by simp
      rw [this, List.take_left ..]
      exact hc
  · rintro ⟨hpre, hsuf, hc⟩
    obtain ⟨t1, ht1⟩ := List.isPrefixOf_iff_prefix.mp hpre
    obtain ⟨w, hw⟩ := List.isSuffixOf_iff_suffix.mp hsuf
    have hdrop : text.drop first.length = t1 := by
      rw [← ht1]; exact List.drop_left ..
    rw [hdrop] at hw hc
    refine ⟨w, ?_, ?_⟩
    · rw [← ht1, ← hw]; simp
    · have hlen : t1.length - lastSeg.length = w.length := by rw [← hw]; simp
      rw [hlen, ← hw, List.take_left ..] at hc
      exact hc

theorem getLastD_cons_concat {α : Type _} (a : α) (xs : List α) (b d : α) :
    (a :: (xs ++ [b])).getLastD d = b := by
  induction xs generalizing a d with
  | nil => rfl
  | cons x xs ih => exact ih x a

theorem matchWildcard_iff_sem (pattern text first : List Char)
    (mids : List (List Char)) (lastSeg : List Char)
    (hsplit : goSplit pattern '*' = first :: (mids ++ [lastSeg])) :
    matchWildcard pattern text = true
    ↔ ∃ u, text = first ++ u ++ lastSeg ∧ coversInOrder mids u := by
  rw [exists_decomp_iff]
  unfold matchWildcard
  simp only [hsplit]
  rw [if_neg (show ¬ (first :: (mids ++ [lastSeg])).length = 1 from by simp)]
  rw [show (first :: (mids ++ [lastSeg])).headD [] = first from rfl]
  rw [getLastD_cons_concat first mids lastSeg []]
  rw [show ((first :: (mids ++ [lastSeg])).drop 1).dropLast = mids from by simp]
  by_cases hpre : first.isPrefixOf text = true
  · have hnc1 : ¬ (first ≠ [] ∧ ¬ first.isPrefixOf text = true) := by simp [hpre]
    rw [if_neg hnc1]
    have htrim1 : goTrimPre text first = text.drop first.length := by
      unfold goTrimPre
      rw [if_pos hpre]
    rw [htrim1]
    by_cases hsuf : lastSeg.isSuffixOf (text.drop first.length) = true
    · have hnc2 : ¬ (lastSeg ≠ [] ∧ ¬ lastSeg.isSuffixOf (text.drop first.length) = true) := by
        simp [hsuf]
      rw [if_neg hnc2]
      have htrim2 : goTrimSuf (text.drop first.length) lastSeg
          = (text.drop first.length).take
              ((text.drop first.length).length - lastSeg.length) := by
        unfold goTrimSuf
        rw [if_pos hsuf]
      rw [htrim2, matchMiddles_iff]
      simp [hpre, hsuf]
    · have hlastne : lastSeg ≠ [] := by
        intro h
        apply hsuf
        subst h
        exact List.isSuffixOf_iff_suffix.mpr (List.nil_suffix)
      rw [if_pos ⟨hlastne, hsuf⟩]
      simp [hsuf]
  · have hfirstne : first ≠ [] := by
      intro h
      apply hpre
      subst h
      exact List.isPrefixOf_iff_prefix.mpr (List.nil_prefix)
    rw [if_pos ⟨hfirstne, hpre⟩]
    simp [hpre]

theorem MatchAlias_iff_globSem (pattern name : List Char) :
    MatchAlias pattern name = true ↔ aliasGlobSem pattern name := by
  by_cases hstar : pattern.contains '*' = true
  · have hmem : '*' ∈ pattern := by simpa [List.contains] using hstar
    have hlen2 := goSplit_length_ge_two hmem
    obtain ⟨first, rest, hsplit⟩ :
        ∃ a r, goSplit pattern '*' = a :: r := by
      cases hs : goSplit pattern '*' with
      | nil => exact absurd hs (goSplit_ne_nil pattern '*')
      | cons a r => exact ⟨a, r, rfl⟩
    have hrestne : rest ≠ [] := by
      intro h
      rw [hsplit, h] at hlen2
      simp at hlen2
    obtain ⟨mids, lastSeg, hrest⟩ : ∃ m l, rest = m ++ [l] :=
      ⟨rest.dropLast, rest.getLast hrestne, (List.dropLast_append_getLast hrestne).symm⟩
    subst hrest
    have hsplit' : goSplit pattern '*' = first :: (mids ++ [lastSeg]) := hsplit
    have hsem : aliasGlobSem pattern name
        ↔ ∃ u, name = first ++ u ++ lastSeg ∧ coversInOrder mids u := by
      unfold aliasGlobSem patFirst patLast patMiddles patParts
      rw [if_pos hstar]
      rw [hsplit']
      rw [show (first :: (mids ++ [lastSeg])).headD [] = first from rfl]
      rw [getLastD_cons_concat first mids lastSeg []]
      rw [show ((first :: (mids ++ [lastSeg])).drop 1).dropLast = mids from by simp]
    rw [hsem]
    unfold MatchAlias
    rw [if_neg (not_not_intro hstar)]
    simp only [hsplit']
    by_cases hbA : ['*'].isSuffixOf pattern = true
        ∧ (first :: (mids ++ [lastSeg])).length = 2
        ∧ (first :: (mids ++ [lastSeg])).getD 1 [] = []
    · rw [if_pos hbA]
      obtain ⟨-, hlenA, hget1⟩ := hbA
      have hmids : mids = [] := by
        simp only [List.length_cons, List.length_append, List.length_nil] at hlenA
        exact List.length_eq_zero.mp (by omega)
      subst hmids
      have hlastnil : lastSeg = [] := by simpa using hget1
      subst hlastnil
      rw [show ((first :: ([] ++ [([] : List Char)])).getD 0 []) = first from rfl]
      constructor
      · intro h
        obtain ⟨t, ht⟩ := List.isPrefixOf_iff_prefix.mp h
        exact ⟨t, by simp [← ht], trivial⟩
      · rintro ⟨u, rfl, -⟩
        exact List.isPrefixOf_iff_prefix.mpr ⟨u ++ [], by simp⟩
    · rw [if_neg hbA]
      by_cases hbB : ['*'].isPrefixOf pattern = true
          ∧ (first :: (mids ++ [lastSeg])).length = 2
          ∧ (first :: (mids ++ [lastSeg])).getD 0 [] = []
      · rw [if_pos hbB]
        obtain ⟨-, hlenB, hget0⟩ := hbB
        have hmids : mids = [] := by
          simp only [List.length_cons, List.length_append, List.length_nil] at hlenB
          exact List.length_eq_zero.mp (by omega)
        subst hmids
        have hfirstnil : first = [] := by simpa using hget0
        subst hfirstnil
        rw [show ((([] : List Char) :: ([] ++ [lastSeg])).getD 1 []) = lastSeg from rfl]
        constructor
        · intro h
          obtain ⟨t, ht⟩ := List.isSuffixOf_iff_suffix.mp h
          exact ⟨t, by simp [← ht], trivial⟩
        · rintro ⟨u, rfl, -⟩
          exact List.isSuffixOf_iff_suffix.mpr ⟨[] ++ u, by simp⟩
      · rw [if_neg hbB]
        exact matchWildcard_iff_sem pattern name first mids lastSeg hsplit'
  · unfold MatchAlias aliasGlobSem
    rw [if_pos hstar, if_neg hstar]
    rw [beq_iff_eq]
    exact eq_comm

/-!
## Claim theorems
-/

/-- A chunk with no choices converts to no events (part_009 lines
103-105). -/
theorem openAIStream_nil_choices (chunk : OpenAIStreamChunk) (model : String)
    (h : chunk.choices = []) :
    OpenAIStreamToAnthropicStream chunk model = [] := by
  unfold OpenAIStreamToAnthropicStream
  rw [h]

/-- C10: an OpenAI stream chunk whose `choices` array is empty produces
an empty Anthropic event list — the chunk is silently dropped rather
than rejected or forwarded. (At the embedded structure level the
converter is total: its only error path in the source is the JSON
decode of the raw chunk bytes, which a parsed chunk has already
passed, so the error returned alongside the empty list is nil.) -/
theorem c10_empty_choices_dropped (chunk : OpenAIStreamChunk) (model : String)
    (h : chunk.choices = []) :
    OpenAIStreamToAnthropicStream chunk model = [] :=
  openAIStream_nil_choices chunk model h

/-- C10 witness: the converter drops a concrete keep-alive chunk. -/
theorem c10_witness : OpenAIStreamToAnthropicStream exChunkEmpty "m" = [] :=
  c10_empty_choices_dropped exChunkEmpty "m" rfl

/-- C6 counterexample: on pattern `a*a` and name `a`, the claim's
reading — the name starts with the first segment and ends with the last
segment, both tested against the whole name — accepts, but `MatchAlias`
rejects, because the code matches the suffix only against what remains
of the name after the prefix has been consumed. -/
theorem c6_counterexample :
    claimedAliasMatch "a*a".data "a".data
    ∧ MatchAlias "a*a".data "a".data = false := by
  constructor
  · unfold claimedAliasMatch
    rw [if_pos (by decide)]
    exact ⟨by decide, by decide, trivial⟩
  · decide

/-- C6 (amended): `MatchAlias` returns true iff the pattern, split on
`*`, matches the name with its segments occupying disjoint portions in
order — the name starts with the first segment, the remainder after
that prefix ends with the last segment, and the part in between
contains every middle segment in order without overlap; with no `*`
the match is strict equality. All seven example vectors of the claim
hold. -/
theorem c6_glob_semantics :
    (∀ pattern name : List Char,
        MatchAlias pattern name = true ↔ aliasGlobSem pattern name)
    ∧ MatchAliasS "foo*" "foobar" = true
    ∧ MatchAliasS "foo*" "barfoo" = false
    ∧ MatchAliasS "*foo" "barfoo" = true
    ∧ MatchAliasS "a*b" "ab" = true
    ∧ MatchAliasS "a*b" "acb" = true
    ∧ MatchAliasS "foo" "foo" = true
    ∧ MatchAliasS "foo" "food" = false :=
  ⟨MatchAlias_iff_globSem, by decide, by decide, by decide, by decide,
   by decide, by decide, by decide⟩

/-- C5 counterexample: on a chunk finishing with `content_filter` the
converter emits `message_delta` with stop reason `stop_sequence`, not
`end_turn` as the claim's mapping ("anything else → end_turn") states.
-/
theorem c5_counterexample :
    OpenAIStreamToAnthropicStream exChunkContentFilter "m"
      = [contentBlockStopEvent, messageDeltaEvent "stop_sequence", messageStopEvent]
    ∧ OpenAIStreamToAnthropicStream exChunkContentFilter "m"
      ≠ [contentBlockStopEvent, messageDeltaEvent "end_turn", messageStopEvent] := by
  refine ⟨rfl, ?_⟩
  intro h
  have hdelta := congrArg (fun l => (l.map
    (fun (e : AnthropicStreamEvent) => (e.delta.map AnthropicDelta.stopReason).getD ""))) h
  simp [OpenAIStreamToAnthropicStream, exChunkContentFilter, mapStreamStopReason,
    contentBlockStopEvent, messageDeltaEvent, messageStopEvent,
    ExtractOpenAIText, joinTextSegments] at hdelta

/-- C5 (amended): for every OpenAI stream chunk whose first choice has
a non-null, non-empty `finish_reason`, the converter ends its output
with exactly: `content_block_stop`, then `message_delta` carrying the
mapped stop reason (`stop → end_turn`, `length → max_tokens`,
`content_filter → stop_sequence`, anything else → `end_turn`) and
`usage.output_tokens = 0`, then `message_stop`; the three are the whole
output when the chunk carries no role and no text. Such a chunk emits
exactly one `message_stop`, and chunks without a finish_reason emit
none, so an OpenAI stream ending with a finish_reason produces exactly
one `message_stop` downstream. -/
theorem c5_finish_reason_events (chunk : OpenAIStreamChunk) (model : String)
    (choice : OpenAIStreamChoice) (rest : List OpenAIStreamChoice) (fr : String)
    (hchoices : chunk.choices = choice :: rest)
    (hfr : choice.finishReason = some fr) (hne : fr ≠ "") :
    (∃ prefixEvents,
        OpenAIStreamToAnthropicStream chunk model
          = prefixEvents
            ++ [contentBlockStopEvent,
                messageDeltaEvent (mapStreamStopReason fr), messageStopEvent]
        ∧ (choice.delta.role = "" →
            joinTextSegments (ExtractOpenAIText choice.delta.content) = "" →
            prefixEvents = []))
    ∧ (OpenAIStreamToAnthropicStream chunk model).countP
        (fun e => e.type == "message_stop") = 1
    ∧ (messageDeltaEvent (mapStreamStopReason fr)).usage
        = some { inputTokens := 0, outputTokens := 0 }
    ∧ mapStreamStopReason "stop" = "end_turn"
    ∧ mapStreamStopReason "length" = "max_tokens"
    ∧ mapStreamStopReason "content_filter" = "stop_sequence"
    ∧ (fr ≠ "stop" → fr ≠ "length" → fr ≠ "content_filter" →
        mapStreamStopReason fr = "end_turn")
    ∧ (∀ (chunk2 : OpenAIStreamChunk) (model2 : String),
        (∀ choice2 rest2, chunk2.choices = choice2 :: rest2 →
            choice2.finishReason.getD "" = "") →
        (OpenAIStreamToAnthropicStream chunk2 model2).countP
          (fun e => e.type == "message_stop") = 0) := by
  have hconv : OpenAIStreamToAnthropicStream chunk model
      = (if choice.delta.role ≠ "" then
          [messageStartEvent chunk.id model, contentBlockStartEvent] else [])
        ++ (if joinTextSegments (ExtractOpenAIText choice.delta.content) ≠ "" then
            [contentBlockDeltaEvent (joinTextSegments (ExtractOpenAIText choice.delta.content))]
           else [])
        ++ [contentBlockStopEvent,
            messageDeltaEvent (mapStreamStopReason fr), messageStopEvent] := by
    simp only [OpenAIStreamToAnthropicStream, hchoices, hfr]
    rw [if_pos hne]
  have hcount0 : ∀ (chunk2 : OpenAIStreamChunk) (model2 : String),
      (∀ choice2 rest2, chunk2.choices = choice2 :: rest2 →
          choice2.finishReason.getD "" = "") →
      (OpenAIStreamToAnthropicStream chunk2 model2).countP
        (fun e => e.type == "message_stop") = 0 := by
    intro chunk2 model2 hnofin
    cases hch : chunk2.choices with
    | nil =>
      rw [openAIStream_nil_choices chunk2 model2 hch]
      rfl
    | cons choice2 rest2 =>
      have hfin := hnofin choice2 rest2 hch
      have hconv2 : OpenAIStreamToAnthropicStream chunk2 model2
          = (if choice2.delta.role ≠ "" then
              [messageStartEvent chunk2.id model2, contentBlockStartEvent] else [])
            ++ (if joinTextSegments (ExtractOpenAIText choice2.delta.content) ≠ "" then
                [contentBlockDeltaEvent
                  (joinTextSegments (ExtractOpenAIText choice2.delta.content))]
               else [])
            ++ [] := by
        simp only [OpenAIStreamToAnthropicStream, hch]
        cases hopt : choice2.finishReason with
        | none => rfl
        | some fr2 =>
          rw [hopt] at hfin
          simp only [Option.getD_some] at hfin
          rw [hfin]
          simp
      rw [hconv2]
      rw [List.countP_append, List.countP_append]
      by_cases hrole : choice2.delta.role ≠ "" <;>
        by_cases htext : joinTextSegments (ExtractOpenAIText choice2.delta.content) ≠ "" <;>
        simp [hrole, htext, List.countP_cons, messageStartEvent,
          contentBlockStartEvent, contentBlockDeltaEvent]
  refine ⟨⟨_, by rw [hconv, List.append_assoc], ?_⟩, ?_, rfl, rfl, rfl, rfl, ?_, hcount0⟩
  · intro hrole htext
    simp [hrole, htext]
  · rw [hconv]
    rw [List.countP_append, List.countP_append]
    by_cases hrole : choice.delta.role ≠ "" <;>
      by_cases htext : joinTextSegments (ExtractOpenAIText choice.delta.content) ≠ "" <;>
      simp [hrole, htext, List.countP_cons, messageStartEvent, contentBlockStartEvent,
        contentBlockDeltaEvent, contentBlockStopEvent, messageDeltaEvent, messageStopEvent]
  · intro h1 h2 h3
    unfold mapStreamStopReason
    split <;> simp_all

/-- The re-marshalled `message_start` event counts no tokens. -/
theorem streamEventTokens_messageStart (chunkId model : String) :
    streamEventTokens (messageStartEvent chunkId model) = 0 := rfl

/-- The re-marshalled `content_block_start` event counts no tokens. -/
theorem streamEventTokens_contentBlockStart :
    streamEventTokens contentBlockStartEvent = 0 := rfl

/-- The re-marshalled `content_block_stop` event counts no tokens. -/
theorem streamEventTokens_contentBlockStop :
    streamEventTokens contentBlockStopEvent = 0 := rfl

/-- The re-marshalled `message_stop` event counts no tokens. -/
theorem streamEventTokens_messageStop :
    streamEventTokens messageStopEvent = 0 := rfl

/-- The re-marshalled `message_delta` event always counts the
`usage.output_tokens` it carries, which the transcoder fixes at 0. -/
theorem streamEventTokens_messageDelta (sr : String) :
    streamEventTokens (messageDeltaEvent sr) = 0 := rfl

/-- A re-marshalled text delta counts `len(text) / 4` tokens (floor,
UTF-8 byte length). -/
theorem streamEventTokens_contentBlockDelta (t : String) :
    streamEventTokens (contentBlockDeltaEvent t) = Int.ofNat (t.utf8ByteSize / 4) := by
  by_cases h : t = ""
  · subst h
    rfl
  · simp only [streamEventTokens, contentBlockDeltaEvent, anthropicStreamEventToJson,
      anthropicDeltaToJson, h, ne_eq, not_false_iff, if_true, if_neg]
    simp [extractStreamTokens, jlookup, Json.asStr, Json.asObj, List.find?, h]

/-- Folding the token count over the events of one converted chunk adds
exactly the chunk's closed-form contribution. -/
theorem foldl_streamEventTokens_chunk (chunk : OpenAIStreamChunk) (model : String)
    (acc : Int) :
    (OpenAIStreamToAnthropicStream chunk model).foldl
      (fun a e => a + streamEventTokens e) acc = acc + chunkDeltaTokens chunk := by
  cases hch : chunk.choices with
  | nil =>
    rw [openAIStream_nil_choices chunk model hch]
    simp [chunkDeltaTokens, hch]
  | cons choice rest =>
    simp only [OpenAIStreamToAnthropicStream, chunkDeltaTokens, hch]
    rw [List.foldl_append, List.foldl_append]
    have hrole : ∀ a : Int,
        (if choice.delta.role ≠ "" then
          [messageStartEvent chunk.id model, contentBlockStartEvent] else []).foldl
          (fun a e => a + streamEventTokens e) a = a := by
      intro a
      by_cases h : choice.delta.role ≠ "" <;>
        simp [h, streamEventTokens_messageStart, streamEventTokens_contentBlockStart]
    have htext : ∀ a : Int,
        (if joinTextSegments (ExtractOpenAIText choice.delta.content) ≠ "" then
          [contentBlockDeltaEvent (joinTextSegments (ExtractOpenAIText choice.delta.content))]
         else []).foldl (fun a e => a + streamEventTokens e) a
        = a + Int.ofNat
            ((joinTextSegments (ExtractOpenAIText choice.delta.content)).utf8ByteSize / 4) := by
      intro a
      by_cases h : joinTextSegments (ExtractOpenAIText choice.delta.content) ≠ ""
      · simp [h, streamEventTokens_contentBlockDelta]
      · rw [not_not] at h
        simp [h, show ("" : String).utf8ByteSize = 0 from rfl]
    have hfin : ∀ a : Int,
        (match choice.finishReason with
          | some finishReason =>
            if finishReason ≠ "" then
              [contentBlockStopEvent,
               messageDeltaEvent (mapStreamStopReason finishReason), messageStopEvent]
            else []
          | none => ([] : List AnthropicStreamEvent)).foldl
          (fun a e => a + streamEventTokens e) a = a := by
      intro a
      cases hf : choice.finishReason with
      | none => rfl
      | some finishReason =>
        by_cases h : finishReason ≠ "" <;>
          simp [h, streamEventTokens_contentBlockStop, streamEventTokens_messageDelta,
            streamEventTokens_messageStop]
    rw [hrole, htext, hfin]

/-- C4 counterexample: a stream consisting of one three-byte text delta
"abc". The claim's accounting — `ceil(len/4)` with a minimum of 1 for a
non-empty delta — predicts 1 token and a recorded sample of 1; the code
counts `3/4 = 0` tokens and therefore records the fallback constant
100. -/
theorem c4_counterexample :
    handleOpenAIStreamTokens [exChunkAbc] "m" = 0
    ∧ recordedStreamSampleTokens (handleOpenAIStreamTokens [exChunkAbc] "m") = 100
    ∧ ¬ (handleOpenAIStreamTokens [exChunkAbc] "m"
          = Int.ofNat ((("abc" : String).utf8ByteSize + 3) / 4))
    ∧ Int.ofNat ((("abc" : String).utf8ByteSize + 3) / 4) = 1 := by
  refine ⟨rfl, rfl, ?_, rfl⟩
  decide

/-- C4 (amended): during OpenAI SSE streaming each text delta
contributes `floor(len/4)` tokens (so a non-empty delta shorter than 4
bytes contributes 0, with no minimum of 1); a `message_delta` event
contributes exactly the `usage.output_tokens` it carries — always 0
from the transcoder — added to the running sum rather than superseding
it; the total is the plain sum of the per-chunk contributions; and the
recorded sample is that total when positive, the constant 100
otherwise. -/
theorem c4_stream_token_accounting (chunks : List OpenAIStreamChunk) (model : String) :
    handleOpenAIStreamTokens chunks model = (chunks.map chunkDeltaTokens).sum
    ∧ (∀ t : String,
        streamEventTokens (contentBlockDeltaEvent t) = Int.ofNat (t.utf8ByteSize / 4))
    ∧ (∀ sr : String, streamEventTokens (messageDeltaEvent sr) = 0)
    ∧ recordedStreamSampleTokens ((chunks.map chunkDeltaTokens).sum)
        = (if 0 < (chunks.map chunkDeltaTokens).sum
           then (chunks.map chunkDeltaTokens).sum else 100) := by
  refine ⟨?_, streamEventTokens_contentBlockDelta, streamEventTokens_messageDelta, rfl⟩
  suffices h : ∀ acc : Int, chunks.foldl
      (fun totalTokens chunk =>
        (OpenAIStreamToAnthropicStream chunk model).foldl
          (fun acc event => acc + streamEventTokens event) totalTokens) acc
      = acc + (chunks.map chunkDeltaTokens).sum by
    simpa [handleOpenAIStreamTokens] using h 0
  induction chunks with
  | nil => simp
  | cons chunk chunks ih =>
    intro acc
    simp only [List.foldl_cons, List.map_cons, List.sum_cons]
    rw [foldl_streamEventTokens_chunk, ih]
    ring

/-- C5 witness: the finish events at the concrete chunk that ends with
`finish_reason: "stop"`. -/
theorem c5_witness :
    (OpenAIStreamToAnthropicStream exChunkFinishStop "m").countP
      (fun e => e.type == "message_stop") = 1 :=
  (c5_finish_reason_events exChunkFinishStop "m"
    { finishReason := some "stop" } [] "stop" rfl rfl (by decide)).2.1

/-- C8 counterexample: recording a sample with zero tokens over a
positive duration (1 s) leaves the cached TPS at 0 — the claim's
"after any record call with dur > 0, tps(p,m) > 0" fails when
`tokens = 0`. -/
theorem c8_counterexample :
    GetTPS (UpdateTPS emptyMetricCache "p" "m" 0 1 0) "p" "m" = 0
    ∧ ¬ (0 < GetTPS (UpdateTPS emptyMetricCache "p" "m" 0 1 0) "p" "m") := by
  have h : GetTPS (UpdateTPS emptyMetricCache "p" "m" 0 1 0) "p" "m" = 0 := by
    simp [GetTPS, UpdateTPS, emptyMetricCache, calculateAverageTPS]
  exact ⟨h, by rw [h]; exact lt_irrefl 0⟩

/-- C8 (amended): `record(p,m,tokens,dur)` computes the sample TPS as
`tokens/dur` (0 when `dur` is not positive), appends the sample to the
per-(p,m) ring evicting the oldest entries beyond capacity 5, and sets
the value returned by `tps(p,m)` to the arithmetic mean of the ring;
other keys are untouched; the ring never exceeds 5 samples; and after a
record with `dur > 0` and `tokens > 0` (not merely `dur > 0`) on a ring
of non-negative samples, `tps(p,m) > 0`. -/
theorem c8_update_tps (c : MetricCache) (p m : String) (tokens : Int)
    (dur : ℚ) (now : Int) (hwf : MetricCacheWF c) :
    ringOf (UpdateTPS c p m tokens dur now) p m = specRingAfter c p m tokens dur now
    ∧ MetricCacheWF (UpdateTPS c p m tokens dur now)
    ∧ GetTPS (UpdateTPS c p m tokens dur now) p m
        = calculateAverageTPS (specRingAfter c p m tokens dur now)
    ∧ (∀ k, k ≠ makeKey p m → UpdateTPS c p m tokens dur now k = c k)
    ∧ (0 < tokens → 0 < dur → (∀ s_ ∈ ringOf c p m, 0 ≤ s_.tps) →
        0 < GetTPS (UpdateTPS c p m tokens dur now) p m) := by
  have hkey : UpdateTPS c p m tokens dur now (makeKey p m)
      = some { (match c (makeKey p m) with
                | some d => d
                | none => { providerName := p, modelName := m,
                            samples := [], maxSamples := 5 }) with
               samples := specRingAfter c p m tokens dur now
               tps := calculateAverageTPS (specRingAfter c p m tokens dur now) } := by
    cases hc : c (makeKey p m) with
    | none =>
      simp only [UpdateTPS, hc, if_pos rfl, specRingAfter, specSample, ringOf]
    | some d =>
      have hmax : d.maxSamples = 5 := (hwf _ _ hc).1
      simp only [UpdateTPS, hc, if_pos rfl, specRingAfter, specSample, ringOf, hmax]
  have hring : ringOf (UpdateTPS c p m tokens dur now) p m
      = specRingAfter c p m tokens dur now := by
    unfold ringOf
    rw [hkey]
  have hlen : (specRingAfter c p m tokens dur now).length ≤ 5 := by
    unfold specRingAfter
    by_cases h : (ringOf c p m ++ [specSample tokens dur now]).length > 5
    · rw [if_pos h]
      rw [List.length_drop]
      omega
    · rw [if_neg h]
      omega
  have hmem : specSample tokens dur now ∈ specRingAfter c p m tokens dur now := by
    unfold specRingAfter
    by_cases h : (ringOf c p m ++ [specSample tokens dur now]).length > 5
    · rw [if_pos h]
      rw [List.length_append] at h
      rw [List.drop_append_of_le_length
        (by simp only [List.length_append, List.length_singleton] at h ⊢; omega)]
      exact List.mem_append_right _ (List.mem_singleton.mpr rfl)
    · rw [if_neg h]
      exact List.mem_append_right _ (List.mem_singleton.mpr rfl)
  have hsub : ∀ s_ ∈ specRingAfter c p m tokens dur now,
      s_ ∈ ringOf c p m ++ [specSample tokens dur now] := by
    intro s_ hs
    unfold specRingAfter at hs
    by_cases h : (ringOf c p m ++ [specSample tokens dur now]).length > 5
    · rw [if_pos h] at hs
      exact List.drop_subset _ _ hs
    · rw [if_neg h] at hs
      exact hs
  refine ⟨hring, ?_, ?_, ?_, ?_⟩
  · intro k data hk
    by_cases hkk : k = makeKey p m
    · subst hkk
      rw [hkey] at hk
      obtain rfl := Option.some.inj hk
      constructor
      · cases hc : c (makeKey p m) with
        | none => simp [hc]
        | some d => simp [hc, (hwf _ _ hc).1]
      · simpa using hlen
    · have : UpdateTPS c p m tokens dur now k = c k := by
        simp only [UpdateTPS]
        rw [if_neg hkk]
      rw [this] at hk
      exact hwf _ _ hk
  · unfold GetTPS
    rw [hkey]
  · intro k hkk
    simp only [UpdateTPS]
    rw [if_neg hkk]
  · intro htok hdur hnonneg
    have htpspos : 0 < (specSample tokens dur now).tps := by
      simp only [specSample, if_pos hdur]
      exact div_pos (by exact_mod_cast htok) hdur
    have hallnonneg : ∀ s_ ∈ specRingAfter c p m tokens dur now, 0 ≤ s_.tps := by
      intro s_ hs
      rcases List.mem_append.mp (hsub s_ hs) with h | h
      · exact hnonneg s_ h
      · rw [List.mem_singleton.mp h]
        exact le_of_lt htpspos
    unfold GetTPS
    rw [hkey]
    show 0 < calculateAverageTPS (specRingAfter c p m tokens dur now)
    unfold calculateAverageTPS
    have hne : (specRingAfter c p m tokens dur now).length ≠ 0 :=
      List.length_pos.mpr (List.ne_nil_of_mem hmem) |> Nat.pos_iff_ne_zero.mp
    rw [if_neg hne]
    apply div_pos
    · have hle : (specSample tokens dur now).tps
          ≤ ((specRingAfter c p m tokens dur now).map Sample.tps).sum := by
        apply List.single_le_sum
        · intro x hx
          obtain ⟨s_, hs, rfl⟩ := List.mem_map.mp hx
          exact hallnonneg s_ hs
        · exact List.mem_map_of_mem Sample.tps hmem
      exact lt_of_lt_of_le htpspos hle
    · exact_mod_cast Nat.pos_of_ne_zero hne

/-- C8 witness: a concrete record of 7 tokens over 2 s on the empty
cache yields a positive cached TPS. -/
theorem c8_witness :
    0 < GetTPS (UpdateTPS emptyMetricCache "p" "m" 7 2 0) "p" "m" :=
  (c8_update_tps emptyMetricCache "p" "m" 7 2 0
      (fun k data h => by simp [emptyMetricCache] at h)).2.2.2.2
    (by decide) (by decide)
    (fun s_ hs => absurd hs (by simp [ringOf, emptyMetricCache]))

/-- A Bool that is not false is true. -/
theorem bool_ne_false {b : Bool} (h : ¬ b = false) : b = true := by
  cases b
  · exact absurd rfl h
  · rfl

/-- `retry.Do` step: the context is already done when the iteration
opens. -/
theorem retryDoAux_cancelBefore (cfg : RetryConfig)
    {f cb cs : Nat → Bool} {attempt left : Nat} (hcb : cb attempt = true) :
    retryDoAux cfg f cb cs attempt left
      = { outcome := RetryOutcome.ctxError, attemptsUsed := 0, sleeps := [] } := by
  cases left with
  | zero => rw [retryDoAux, if_pos hcb]
  | succ left' => rw [retryDoAux, if_pos hcb]

/-- `retry.Do` step: `fn` succeeds. -/
theorem retryDoAux_success (cfg : RetryConfig)
    {f cb cs : Nat → Bool} {attempt left : Nat}
    (hcb : cb attempt = false) (hf : f attempt = false) :
    retryDoAux cfg f cb cs attempt left
      = { outcome := RetryOutcome.success, attemptsUsed := 1, sleeps := [] } := by
  cases left with
  | zero => rw [retryDoAux, if_neg (by simp [hcb]), if_pos hf]
  | succ left' => rw [retryDoAux, if_neg (by simp [hcb]), if_pos hf]

/-- `retry.Do` step: the last allowed attempt fails — break without
sleeping and report the max-retries error. -/
theorem retryDoAux_exhausted (cfg : RetryConfig)
    {f cb cs : Nat → Bool} {attempt : Nat}
    (hcb : cb attempt = false) (hf : f attempt = true) :
    retryDoAux cfg f cb cs attempt 0
      = { outcome := RetryOutcome.maxRetriesExceeded, attemptsUsed := 1, sleeps := [] } := by
  rw [retryDoAux, if_neg (by simp [hcb]), if_neg (by simp [hf])]

/-- `retry.Do` step: the attempt fails and cancellation wins the
backoff select — the sleep is cut short and `ctx.Err()` is returned. -/
theorem retryDoAux_sleepCancel (cfg : RetryConfig)
    {f cb cs : Nat → Bool} {attempt left : Nat}
    (hcb : cb attempt = false) (hf : f attempt = true) (hcs : cs attempt = true) :
    retryDoAux cfg f cb cs attempt (left + 1)
      = { outcome := RetryOutcome.ctxError, attemptsUsed := 1, sleeps := [] } := by
  rw [retryDoAux, if_neg (by simp [hcb]), if_neg (by simp [hf]), if_pos hcs]

/-- `retry.Do` step: the attempt fails, the backoff sleep completes,
and the loop continues with the next attempt. -/
theorem retryDoAux_step (cfg : RetryConfig)
    {f cb cs : Nat → Bool} {attempt left : Nat}
    (hcb : cb attempt = false) (hf : f attempt = true) (hcs : cs attempt = false) :
    retryDoAux cfg f cb cs attempt (left + 1)
      = { outcome := (retryDoAux cfg f cb cs (attempt + 1) left).outcome
          attemptsUsed := 1 + (retryDoAux cfg f cb cs (attempt + 1) left).attemptsUsed
          sleeps := backoffDelay cfg attempt
            :: (retryDoAux cfg f cb cs (attempt + 1) left).sleeps } := by
  rw [retryDoAux, if_neg (by simp [hcb]), if_neg (by simp [hf]), if_neg (by simp [hcs])]

/-- The loop from `attempt` with `left` further attempts allowed
executes `fn` at most `left + 1` times. -/
theorem retryDoAux_attempts_le (cfg : RetryConfig) (f cb cs : Nat → Bool) :
    ∀ (left attempt : Nat),
      (retryDoAux cfg f cb cs attempt left).attemptsUsed ≤ left + 1 := by
  intro left
  induction left with
  | zero =>
    intro attempt
    by_cases hcb : cb attempt = true
    · rw [retryDoAux_cancelBefore cfg hcb]
      exact Nat.zero_le _
    · have hcbf : cb attempt = false := by revert hcb; cases cb attempt <;> simp
      by_cases hf : f attempt = false
      · rw [retryDoAux_success cfg hcbf hf]
      · rw [retryDoAux_exhausted cfg hcbf (bool_ne_false hf)]
  | succ left' ih =>
    intro attempt
    by_cases hcb : cb attempt = true
    · rw [retryDoAux_cancelBefore cfg hcb]
      exact Nat.zero_le _
    · have hcbf : cb attempt = false := by revert hcb; cases cb attempt <;> simp
      by_cases hf : f attempt = false
      · rw [retryDoAux_success cfg hcbf hf]
        show (1 : Nat) ≤ left' + 1 + 1
        omega
      · by_cases hcs : cs attempt = true
        · rw [retryDoAux_sleepCancel cfg hcbf (bool_ne_false hf) hcs]
          show (1 : Nat) ≤ left' + 1 + 1
          omega
        · have hcsf : cs attempt = false := by revert hcs; cases cs attempt <;> simp
          rw [retryDoAux_step cfg hcbf (bool_ne_false hf) hcsf]
          show 1 + (retryDoAux cfg f cb cs (attempt + 1) left').attemptsUsed
            ≤ left' + 1 + 1
          have := ih (attempt + 1)
          omega

/-- Every backoff sleep the loop completes is the exponential delay of
its attempt index. -/
theorem retryDoAux_sleeps_get (cfg : RetryConfig) (f cb cs : Nat → Bool) :
    ∀ (left attempt n : Nat) (d : ℚ),
      (retryDoAux cfg f cb cs attempt left).sleeps.get? n = some d →
      d = backoffDelay cfg (attempt + n) := by
  intro left
  induction left with
  | zero =>
    intro attempt n d h
    by_cases hcb : cb attempt = true
    · rw [retryDoAux_cancelBefore cfg hcb] at h
      simp at h
    · have hcbf : cb attempt = false := by revert hcb; cases cb attempt <;> simp
      by_cases hf : f attempt = false
      · rw [retryDoAux_success cfg hcbf hf] at h
        simp at h
      · rw [retryDoAux_exhausted cfg hcbf (bool_ne_false hf)] at h
        simp at h
  | succ left' ih =>
    intro attempt n d h
    by_cases hcb : cb attempt = true
    · rw [retryDoAux_cancelBefore cfg hcb] at h
      simp at h
    · have hcbf : cb attempt = false := by revert hcb; cases cb attempt <;> simp
      by_cases hf : f attempt = false
      · rw [retryDoAux_success cfg hcbf hf] at h
        simp at h
      · by_cases hcs : cs attempt = true
        · rw [retryDoAux_sleepCancel cfg hcbf (bool_ne_false hf) hcs] at h
          simp at h
        · have hcsf : cs attempt = false := by revert hcs; cases cs attempt <;> simp
          rw [retryDoAux_step cfg hcbf (bool_ne_false hf) hcsf] at h
          cases n with
          | zero =>
            have h' : some (backoffDelay cfg attempt) = some d := by simpa using h
            obtain rfl := Option.some.inj h'
            rw [Nat.add_zero]
          | succ n' =>
            have h' : (retryDoAux cfg f cb cs (attempt + 1) left').sleeps.get? n'
                = some d := by simpa using h
            rw [ih (attempt + 1) n' d h']
            congr 1
            omega

/-- Splitting off the head of the first `k + 1` exponential delays. -/
theorem backoffDelay_range_succ (cfg : RetryConfig) (attempt k : Nat) :
    (List.range (k + 1)).map (fun i => backoffDelay cfg (attempt + i))
      = backoffDelay cfg attempt
        :: (List.range k).map (fun i => backoffDelay cfg (attempt + 1 + i)) := by
  rw [List.range_succ_eq_map, List.map_cons, List.map_map]
  rw [Nat.add_zero]
  have hfun : ((fun i => backoffDelay cfg (attempt + i)) ∘ Nat.succ)
      = (fun i => backoffDelay cfg (attempt + 1 + i)) := by
    funext i
    simp only [Function.comp]
    congr 1
    omega
  rw [hfun]

/-- If the first `k` attempts fail with completed sleeps and no
cancellation, and attempt `k` is reachable and succeeds, the loop stops
there: `k + 1` executions and the first `k` exponential delays. -/
theorem retryDoAux_first_success (cfg : RetryConfig) (f cb cs : Nat → Bool) :
    ∀ (k attempt left : Nat), k ≤ left →
      (∀ i, i < k → f (attempt + i) = true ∧ cb (attempt + i) = false
        ∧ cs (attempt + i) = false) →
      cb (attempt + k) = false → f (attempt + k) = false →
      retryDoAux cfg f cb cs attempt left
        = { outcome := RetryOutcome.success, attemptsUsed := k + 1,
            sleeps := (List.range k).map (fun i => backoffDelay cfg (attempt + i)) } := by
  intro k
  induction k with
  | zero =>
    intro attempt left _ _ hcb hf
    rw [Nat.add_zero] at hcb hf
    rw [retryDoAux_success cfg hcb hf]
    rfl
  | succ k ih =>
    intro attempt left hk hpre hcb hf
    obtain ⟨left', rfl⟩ : ∃ l', left = l' + 1 := ⟨left - 1, by omega⟩
    have h0 := hpre 0 (Nat.succ_pos k)
    rw [Nat.add_zero] at h0
    rw [retryDoAux_step cfg h0.2.1 h0.1 h0.2.2]
    rw [ih (attempt + 1) left' (by omega)
      (fun i hi => by
        have hp := hpre (i + 1) (by omega)
        rwa [show attempt + (i + 1) = attempt + 1 + i from by omega] at hp)
      (by rwa [show attempt + 1 + k = attempt + (k + 1) from by omega])
      (by rwa [show attempt + 1 + k = attempt + (k + 1) from by omega])]
    rw [backoffDelay_range_succ]
    congr 1
    show 1 + (k + 1) = k + 1 + 1
    omega

/-- If the first `k` attempts fail without cancellation and the context
is done at the check opening attempt `k` (still within budget), the
loop returns the context error after exactly `k` executions. -/
theorem retryDoAux_cancelAt (cfg : RetryConfig) (f cb cs : Nat → Bool) :
    ∀ (k attempt left : Nat), k ≤ left →
      (∀ i, i < k → f (attempt + i) = true ∧ cb (attempt + i) = false
        ∧ cs (attempt + i) = false) →
      cb (attempt + k) = true →
      retryDoAux cfg f cb cs attempt left
        = { outcome := RetryOutcome.ctxError, attemptsUsed := k,
            sleeps := (List.range k).map (fun i => backoffDelay cfg (attempt + i)) } := by
  intro k
  induction k with
  | zero =>
    intro attempt left _ _ hcb
    rw [Nat.add_zero] at hcb
    rw [retryDoAux_cancelBefore cfg hcb]
    rfl
  | succ k ih =>
    intro attempt left hk hpre hcb
    obtain ⟨left', rfl⟩ : ∃ l', left = l' + 1 := ⟨left - 1, by omega⟩
    have h0 := hpre 0 (Nat.succ_pos k)
    rw [Nat.add_zero] at h0
    rw [retryDoAux_step cfg h0.2.1 h0.1 h0.2.2]
    rw [ih (attempt + 1) left' (by omega)
      (fun i hi => by
        have hp := hpre (i + 1) (by omega)
        rwa [show attempt + (i + 1) = attempt + 1 + i from by omega] at hp)
      (by rwa [show attempt + 1 + k = attempt + (k + 1) from by omega])]
    rw [backoffDelay_range_succ]
    congr 1
    show 1 + k = k + 1
    omega

/-- If the first `k` attempts fail without cancellation, attempt `k`
fails too and cancellation then interrupts its backoff sleep, the loop
wakes early and returns the context error after `k + 1` executions. -/
theorem retryDoAux_cancelInSleepAt (cfg : RetryConfig) (f cb cs : Nat → Bool) :
    ∀ (k attempt left : Nat), k < left →
      (∀ i, i < k → f (attempt + i) = true ∧ cb (attempt + i) = false
        ∧ cs (attempt + i) = false) →
      cb (attempt + k) = false → f (attempt + k) = true → cs (attempt + k) = true →
      retryDoAux cfg f cb cs attempt left
        = { outcome := RetryOutcome.ctxError, attemptsUsed := k + 1,
            sleeps := (List.range k).map (fun i => backoffDelay cfg (attempt + i)) } := by
  intro k
  induction k with
  | zero =>
    intro attempt left hk _ hcb hf hcs
    obtain ⟨left', rfl⟩ : ∃ l', left = l' + 1 := ⟨left - 1, by omega⟩
    rw [Nat.add_zero] at hcb hf hcs
    rw [retryDoAux_sleepCancel cfg hcb hf hcs]
    rfl
  | succ k ih =>
    intro attempt left hk hpre hcb hf hcs
    obtain ⟨left', rfl⟩ : ∃ l', left = l' + 1 := ⟨left - 1, by omega⟩
    have h0 := hpre 0 (Nat.succ_pos k)
    rw [Nat.add_zero] at h0
    rw [retryDoAux_step cfg h0.2.1 h0.1 h0.2.2]
    rw [ih (attempt + 1) left' (by omega)
      (fun i hi => by
        have hp := hpre (i + 1) (by omega)
        rwa [show attempt + (i + 1) = attempt + 1 + i from by omega] at hp)
      (by rwa [show attempt + 1 + k = attempt + (k + 1) from by omega])
      (by rwa [show attempt + 1 + k = attempt + (k + 1) from by omega])
      (by rwa [show attempt + 1 + k = attempt + (k + 1) from by omega])]
    rw [backoffDelay_range_succ]
    congr 1
    show 1 + (k + 1) = k + 1 + 1
    omega

/-- C7 counterexample: with the default configuration
(`max_retries = 3`) and an upstream that always fails, `retry.Do`
executes the call 4 times — the loop runs attempts `0..MaxRetries`
inclusive — refuting "attempted up to max_retries times". -/
theorem c7_counterexample :
    (retryDo defaultRetryConfig (fun _ => true) (fun _ => false)
        (fun _ => false)).attemptsUsed = 4
    ∧ defaultRetryConfig.maxRetries = 3
    ∧ ¬ ((retryDo defaultRetryConfig (fun _ => true) (fun _ => false)
          (fun _ => false)).attemptsUsed ≤ defaultRetryConfig.maxRetries) := by
  have h4 : (retryDo defaultRetryConfig (fun _ => true) (fun _ => false)
      (fun _ => false)).attemptsUsed = 4 := rfl
  refine ⟨h4, rfl, ?_⟩
  rw [h4]
  decide

/-- C7 (amended): when same-provider retry is enabled the upstream call
is attempted up to `max_retries + 1` times — the initial attempt plus
`max_retries` retries, hence 4 executions under the default of 3 — not
`max_retries` times; the n-th (0-indexed) backoff sleep equals
`initial_delay · backoff_multiplier ^ n` capped at `max_delay`; an
outcome is retried iff it is a transport error (status 0), a 429, or
any 5xx, while the first non-retriable status ends the loop at once and
is returned to the candidate loop; and cancellation of the request
context — at an iteration boundary or during a backoff sleep — stops
further attempts and wakes the sleep early. -/
theorem c7_retry_with_backoff (config : RetryConfig) (statuses : Nat → Option Int)
    (cb cs : Nat → Bool) :
    (retryDo config (attemptFails statuses) cb cs).attemptsUsed ≤ config.maxRetries + 1
    ∧ (∀ n d, (retryDo config (attemptFails statuses) cb cs).sleeps.get? n = some d →
        d = (if config.initialDelay * config.backoffMultiplier ^ n > config.maxDelay
             then config.maxDelay
             else config.initialDelay * config.backoffMultiplier ^ n))
    ∧ (∀ st : Int, IsRetriable st = true ↔ (st = 0 ∨ st = 429 ∨ (500 ≤ st ∧ st < 600)))
    ∧ (∀ n, attemptFails statuses n = true ↔
        (statuses n = none ∨ ∃ st, statuses n = some st ∧ IsRetriable st = true))
    ∧ (∀ k, k ≤ config.maxRetries →
        (∀ i, i < k → attemptFails statuses i = true ∧ cb i = false ∧ cs i = false) →
        cb k = false → attemptFails statuses k = false →
        ProxyRequestWithRetry config statuses cb cs
          = (statuses k,
             { outcome := RetryOutcome.success, attemptsUsed := k + 1,
               sleeps := (List.range k).map (backoffDelay config) }))
    ∧ (∀ k, k ≤ config.maxRetries →
        (∀ i, i < k → attemptFails statuses i = true ∧ cb i = false ∧ cs i = false) →
        cb k = true →
        retryDo config (attemptFails statuses) cb cs
          = { outcome := RetryOutcome.ctxError, attemptsUsed := k,
              sleeps := (List.range k).map (backoffDelay config) })
    ∧ (∀ k, k < config.maxRetries →
        (∀ i, i < k → attemptFails statuses i = true ∧ cb i = false ∧ cs i = false) →
        cb k = false → attemptFails statuses k = true → cs k = true →
        retryDo config (attemptFails statuses) cb cs
          = { outcome := RetryOutcome.ctxError, attemptsUsed := k + 1,
              sleeps := (List.range k).map (backoffDelay config) }) := by
  have hmapid : ∀ k, (List.range k).map (fun i => backoffDelay config (0 + i))
      = (List.range k).map (backoffDelay config) := by
    intro k
    simp [Nat.zero_add]
  refine ⟨?_, ?_, ?_, ?_, ?_, ?_, ?_⟩
  · exact retryDoAux_attempts_le config (attemptFails statuses) cb cs config.maxRetries 0
  · intro n d h
    have := retryDoAux_sleeps_get config (attemptFails statuses) cb cs
      config.maxRetries 0 n d h
    rw [Nat.zero_add] at this
    simpa [backoffDelay] using this
  · intro st
    unfold IsRetriable
    simp [decide_eq_true_iff, or_assoc]
  · intro n
    unfold attemptFails
    cases h : statuses n with
    | none => simp
    | some st => simp
  · intro k hk hpre hcb hf
    have h := retryDoAux_first_success config (attemptFails statuses) cb cs k 0
      config.maxRetries hk
      (fun i hi => by simpa using hpre i hi)
      (by simpa using hcb) (by simpa using hf)
    unfold ProxyRequestWithRetry retryDo
    rw [h]
    simp only [hmapid]
    show (statuses (k + 1 - 1), _) = _
    rw [Nat.add_sub_cancel]
  · intro k hk hpre hcb
    have h := retryDoAux_cancelAt config (attemptFails statuses) cb cs k 0
      config.maxRetries hk
      (fun i hi => by simpa using hpre i hi)
      (by simpa using hcb)
    unfold retryDo
    rw [h, hmapid]
  · intro k hk hpre hcb hf hcs
    have h := retryDoAux_cancelInSleepAt config (attemptFails statuses) cb cs k 0
      config.maxRetries hk
      (fun i hi => by simpa using hpre i hi)
      (by simpa using hcb) (by simpa using hf) (by simpa using hcs)
    unfold retryDo
    rw [h, hmapid]

/-- C7 witness: a retriable 500 on the first attempt, then 200 — the
call succeeds on the second attempt after one 100 ms backoff sleep. -/
theorem c7_witness :
    ProxyRequestWithRetry defaultRetryConfig exStatuses (fun _ => false) (fun _ => false)
      = (exStatuses 1,
         { outcome := RetryOutcome.success, attemptsUsed := 1 + 1,
           sleeps := (List.range 1).map (backoffDelay defaultRetryConfig) }) :=
  (c7_retry_with_backoff defaultRetryConfig exStatuses (fun _ => false)
      (fun _ => false)).2.2.2.2.1 1 (by decide) (by decide) rfl (by decide)

/-- C1: when a non-streaming request is dispatched to a provider whose
wire format is OPENAI and the upstream answers with HTTP 2xx, the body
forwarded to the client is the Anthropic translation of the upstream
OpenAI response, not the upstream bytes: the id is preserved, the type
is "message", the role "assistant", the model is the requested model,
the content is the text blocks built from `choices[0].message.content`,
`finish_reason` is mapped (in particular "stop" to "end_turn"), and
`usage.input_tokens`/`output_tokens` come from
`prompt_tokens`/`completion_tokens`. (Stated for responses without
tool calls, which only add `tool_use` blocks after the text blocks.) -/
theorem c1_nonstreaming_openai_transcoded (status : Int) (upstream : OpenAIResponse)
    (requestedModel : String) (now : Int)
    (choice : OpenAIChoice) (rest : List OpenAIChoice)
    (hstatus : 200 ≤ status ∧ status < 300)
    (hchoices : upstream.choices = choice :: rest)
    (htools : choice.message.toolCalls = []) :
    handleNonStreamingOpenAISuccess status upstream requestedModel now
      = some (OpenAIToAnthropicResponse upstream requestedModel now)
    ∧ OpenAIToAnthropicResponse upstream requestedModel now
      = { id := upstream.id
          type := "message"
          role := "assistant"
          model := requestedModel
          content := some ((ExtractOpenAIText choice.message.content).map
            (fun t => { type := "text", text := t }))
          stopReason := mapFinishReason choice.finishReason
          stopSequence := ""
          usage := { inputTokens := upstream.usage.promptTokens
                     outputTokens := upstream.usage.completionTokens } }
    ∧ mapFinishReason "stop" = "end_turn" := by
  refine ⟨?_, ?_, rfl⟩
  · unfold handleNonStreamingOpenAISuccess
    rw [if_pos hstatus]
  · simp only [OpenAIToAnthropicResponse, hchoices, openAIContentToTextBlocks]
    rw [if_neg (by rw [htools]; simp)]

/-- C1 witness: the spec's scenario 4 — upstream
`{"id":"c1","choices":[{"message":{"content":"hello"},
"finish_reason":"stop"}],"usage":{"prompt_tokens":1,
"completion_tokens":1}}` at status 200 is forwarded as the expected
Anthropic body. -/
theorem c1_witness :
    handleNonStreamingOpenAISuccess 200 exOpenAIResponse "m" 0
      = some (OpenAIToAnthropicResponse exOpenAIResponse "m" 0)
    ∧ OpenAIToAnthropicResponse exOpenAIResponse "m" 0
      = { id := "c1", type := "message", role := "assistant", model := "m"
          content := some [{ type := "text", text := "hello" }]
          stopReason := "end_turn"
          usage := { inputTokens := 1, outputTokens := 1 } } := by
  have h := c1_nonstreaming_openai_transcoded 200 exOpenAIResponse "m" 0
    { message := { content := Json.str "hello" }, finishReason := "stop" } []
    (by decide) rfl rfl
  exact ⟨h.1, by rw [h.2.1]; rfl⟩

/-- C2: the router partitions the materialized candidates into
`good = {c : c.TPS = 0 ∨ c.TPS ≥ T}` and the full set, returns (a
permutation of, namely the sorted) `good` whenever it is non-empty and
otherwise the full set; a candidate with TPS exactly 0 is never
filtered out at the threshold step; and when candidates matched but
none could be materialized, the result is NO_PROVIDERS_AVAILABLE. -/
theorem c2_threshold_bucket (s : Selector) (requestedModel : String)
    (thinkingEnabled : Bool) :
    (∀ c, c ∈ goodFilter s (materializeChoices s
          (thinkingFilter (FindMatching s.models requestedModel) thinkingEnabled))
        ↔ c ∈ materializeChoices s
            (thinkingFilter (FindMatching s.models requestedModel) thinkingEnabled)
          ∧ (c.tps = 0 ∨ s.tpsThreshold ≤ c.tps))
    ∧ (∀ c, c ∈ materializeChoices s
          (thinkingFilter (FindMatching s.models requestedModel) thinkingEnabled) →
        c.tps = 0 →
        c ∈ goodFilter s (materializeChoices s
          (thinkingFilter (FindMatching s.models requestedModel) thinkingEnabled)))
    ∧ (FindMatching s.models requestedModel ≠ [] →
        materializeChoices s
          (thinkingFilter (FindMatching s.models requestedModel) thinkingEnabled) ≠ [] →
        ∃ l, SelectProviders s requestedModel thinkingEnabled = Except.ok l
          ∧ l.Perm (if (goodFilter s (materializeChoices s
                (thinkingFilter (FindMatching s.models requestedModel)
                  thinkingEnabled))).length > 0
              then goodFilter s (materializeChoices s
                (thinkingFilter (FindMatching s.models requestedModel) thinkingEnabled))
              else materializeChoices s
                (thinkingFilter (FindMatching s.models requestedModel) thinkingEnabled)))
    ∧ (FindMatching s.models requestedModel ≠ [] →
        materializeChoices s
          (thinkingFilter (FindMatching s.models requestedModel) thinkingEnabled) = [] →
        SelectProviders s requestedModel thinkingEnabled
          = Except.error SelectError.noProvidersAvailable) := by
  refine ⟨?_, ?_, ?_, ?_⟩
  · intro c
    simp [goodFilter, List.mem_filter, decide_eq_true_iff, ge_iff_le]
  · intro c hc h0
    simp [goodFilter, List.mem_filter, decide_eq_true_iff, hc, h0]
  · intro hm hall
    have hm0 : ¬ (FindMatching s.models requestedModel).length = 0 := by
      simpa [List.length_eq_zero] using hm
    have hall0 : ¬ (materializeChoices s
        (thinkingFilter (FindMatching s.models requestedModel) thinkingEnabled)).length
          = 0 := by
      simpa [List.length_eq_zero] using hall
    refine ⟨_, ?_, List.perm_insertionSort choiceOrder _⟩
    simp only [SelectProviders]
    rw [if_neg hm0, if_neg hall0]
    rfl
  · intro hm hall
    have hm0 : ¬ (FindMatching s.models requestedModel).length = 0 := by
      simpa [List.length_eq_zero] using hm
    simp only [SelectProviders]
    rw [if_neg hm0, if_pos (by rw [hall]; rfl)]

/-- C2 witness: the zero-TPS rescue scenario — TPS 0 and 35 under
threshold 40 — returns a permutation of its good bucket. -/
theorem c2_witness :
    ∃ l, SelectProviders exSelectorZeroTPS "X" false = Except.ok l
      ∧ l.Perm (if (goodFilter exSelectorZeroTPS (materializeChoices exSelectorZeroTPS
            (thinkingFilter (FindMatching exSelectorZeroTPS.models "X") false))).length > 0
          then goodFilter exSelectorZeroTPS (materializeChoices exSelectorZeroTPS
            (thinkingFilter (FindMatching exSelectorZeroTPS.models "X") false))
          else materializeChoices exSelectorZeroTPS
            (thinkingFilter (FindMatching exSelectorZeroTPS.models "X") false)) :=
  (c2_threshold_bucket exSelectorZeroTPS "X" false).2.2.1 (by decide) (by decide)

/-- Any candidate list `SelectProviders` returns is sorted under the
`sort.Slice` comparison. -/
theorem selectProviders_ok_sorted {s : Selector} {requestedModel : String}
    {thinkingEnabled : Bool} {l : List ProviderChoice}
    (h : SelectProviders s requestedModel thinkingEnabled = Except.ok l) :
    List.Sorted choiceOrder l := by
  simp only [SelectProviders] at h
  by_cases h1 : (FindMatching s.models requestedModel).length = 0
  · rw [if_pos h1] at h
    cases h
  · rw [if_neg h1] at h
    by_cases h2 : (materializeChoices s
        (thinkingFilter (FindMatching s.models requestedModel) thinkingEnabled)).length
          = 0
    · rw [if_pos h2] at h
      cases h
    · rw [if_neg h2] at h
      obtain rfl := Except.ok.inj h
      exact List.sorted_insertionSort choiceOrder _

/-- C3: in every candidate list returned by SelectProviders, a
candidate of strictly greater weight precedes, among equal weights the
strictly higher TPS precedes, and with identical registry and metric
state the returned list is identical across calls. (Ties on both keys
are returned in a deterministic order; Go's `sort.Slice` is not
documented to keep their input order, see `sortChoices`.) -/
theorem c3_sort_order (s : Selector) (requestedModel : String) (thinkingEnabled : Bool)
    (l : List ProviderChoice)
    (h : SelectProviders s requestedModel thinkingEnabled = Except.ok l) :
    (∀ i j : Fin l.length, (l.get j).weight < (l.get i).weight → i < j)
    ∧ (∀ i j : Fin l.length, i ≠ j → (l.get i).weight = (l.get j).weight →
        (l.get j).tps < (l.get i).tps → i < j)
    ∧ (∀ (s2 : Selector) (m2 : String) (t2 : Bool),
        s2 = s → m2 = requestedModel → t2 = thinkingEnabled →
        SelectProviders s2 m2 t2 = Except.ok l) := by
  have hs := selectProviders_ok_sorted h
  refine ⟨?_, ?_, ?_⟩
  · intro i j hw
    rcases lt_trichotomy (i : Fin l.length) j with hij | hij | hij
    · exact hij
    · rw [hij] at hw
      exact absurd hw (lt_irrefl _)
    · exfalso
      have hrel := List.Sorted.rel_get_of_lt hs hij
      rcases (not_choiceLess_iff _ _).mp hrel with h1 | ⟨h1, -⟩
      · exact absurd (lt_trans hw h1) (lt_irrefl _)
      · rw [h1] at hw
        exact absurd hw (lt_irrefl _)
  · intro i j hne heq ht
    rcases lt_trichotomy (i : Fin l.length) j with hij | hij | hij
    · exact hij
    · exact absurd hij hne
    · exfalso
      have hrel := List.Sorted.rel_get_of_lt hs hij
      rcases (not_choiceLess_iff _ _).mp hrel with h1 | ⟨-, h2⟩
      · rw [heq] at h1
        exact absurd h1 (lt_irrefl _)
      · exact absurd (lt_of_lt_of_le ht h2) (lt_irrefl _)
  · intro s2 m2 t2 hs2 hm2 ht2
    rw [hs2, hm2, ht2]
    exact h

/-- C3 witness: with weights 5 and 1 (both under the TPS threshold),
the weight-5 candidate precedes the weight-1 candidate. -/
theorem c3_witness :
    (⟨0, by decide⟩ : Fin ([exChoiceP1, exChoiceP2] : List ProviderChoice).length)
      < ⟨1, by decide⟩ :=
  (c3_sort_order exSelectorWeights "X" false [exChoiceP1, exChoiceP2] rfl).1
    ⟨0, by decide⟩ ⟨1, by decide⟩ (by decide)

/-- C9 counterexample: with thinking requested, the registry narrows to
thinking-capable entries before materialization; if the only
thinking-capable entry points at an absent provider,
`ErrNoProvidersAvailable` is returned even though another matched
entry's provider exists — refuting the claim's characterization "no
matched entry's provider exists in the provider registry". -/
theorem c9_counterexample :
    SelectProviders exSelectorThinking "X" true
      = Except.error SelectError.noProvidersAvailable
    ∧ ∃ m ∈ FindMatching exSelectorThinking.models "X",
        exSelectorThinking.providers m.provider ≠ none := by
  refine ⟨rfl, ⟨{ name := "X", provider := "p2", thinking := false }, ?_, ?_⟩⟩
  · decide
  · decide

/-- C9 (amended): SelectProviders never returns an empty list with a
nil error — every non-error return has at least one candidate — and
every failure is exactly ErrNoModelFound (no registry entry matched the
requested name, by exact name or by non-empty alias glob) or
ErrNoProvidersAvailable (no entry surviving the thinking filter has its
provider in the registry), each returned with a nil candidate list. -/
theorem c9_select_result_shape (s : Selector) (requestedModel : String)
    (thinkingEnabled : Bool) :
    (∀ l, SelectProviders s requestedModel thinkingEnabled = Except.ok l → l ≠ [])
    ∧ (SelectProviders s requestedModel thinkingEnabled
        = Except.error SelectError.noModelFound
       ↔ FindMatching s.models requestedModel = [])
    ∧ (SelectProviders s requestedModel thinkingEnabled
        = Except.error SelectError.noProvidersAvailable
       ↔ FindMatching s.models requestedModel ≠ []
         ∧ ∀ m ∈ thinkingFilter (FindMatching s.models requestedModel) thinkingEnabled,
             s.providers m.provider = none)
    ∧ (FindMatching s.models requestedModel = []
       ↔ (∀ m ∈ s.models, ¬ m.name = requestedModel)
         ∧ (∀ m ∈ s.models, m.«alias» = "" ∨ MatchAliasS m.«alias» requestedModel = false)) := by
  have hmat : ∀ ms, materializeChoices s ms = []
      ↔ ∀ m ∈ ms, s.providers m.provider = none := by
    intro ms
    rw [materializeChoices, List.filterMap_eq_nil]
    constructor
    · intro h m hm
      have := h m hm
      cases hp : s.providers m.provider with
      | none => rfl
      | some prov =>
        rw [hp] at this
        cases this
    · intro h m hm
      rw [h m hm]
  refine ⟨?_, ?_, ?_, ?_⟩
  · intro l h
    simp only [SelectProviders] at h
    by_cases h1 : (FindMatching s.models requestedModel).length = 0
    · rw [if_pos h1] at h
      cases h
    · rw [if_neg h1] at h
      by_cases h2 : (materializeChoices s
          (thinkingFilter (FindMatching s.models requestedModel) thinkingEnabled)).length
            = 0
      · rw [if_pos h2] at h
        cases h
      · rw [if_neg h2] at h
        obtain rfl := Except.ok.inj h
        intro hnil
        have hperm := List.perm_insertionSort choiceOrder
          (if (goodFilter s (materializeChoices s
              (thinkingFilter (FindMatching s.models requestedModel)
                thinkingEnabled))).length > 0
           then goodFilter s (materializeChoices s
              (thinkingFilter (FindMatching s.models requestedModel) thinkingEnabled))
           else materializeChoices s
              (thinkingFilter (FindMatching s.models requestedModel) thinkingEnabled))
        rw [sortChoices] at hnil
        rw [hnil] at hperm
        have hlen := hperm.length_eq
        simp only [List.length_nil] at hlen
        by_cases h3 : (goodFilter s (materializeChoices s
            (thinkingFilter (FindMatching s.models requestedModel)
              thinkingEnabled))).length > 0
        · rw [if_pos h3] at hlen
          omega
        · rw [if_neg h3] at hlen
          omega
  · constructor
    · intro h
      simp only [SelectProviders] at h
      by_cases h1 : (FindMatching s.models requestedModel).length = 0
      · exact List.length_eq_zero.mp h1
      · exfalso
        rw [if_neg h1] at h
        by_cases h2 : (materializeChoices s
            (thinkingFilter (FindMatching s.models requestedModel) thinkingEnabled)).length
              = 0
        · rw [if_pos h2] at h
          exact SelectError.noConfusion (Except.error.inj h)
        · rw [if_neg h2] at h
          cases h
    · intro h
      simp only [SelectProviders]
      rw [if_pos (by rw [h]; rfl)]
  · constructor
    · intro h
      simp only [SelectProviders] at h
      by_cases h1 : (FindMatching s.models requestedModel).length = 0
      · rw [if_pos h1] at h
        exact absurd (Except.error.inj h) (by intro hx; exact SelectError.noConfusion hx)
      · rw [if_neg h1] at h
        refine ⟨by simpa [List.length_eq_zero] using h1, ?_⟩
        by_cases h2 : (materializeChoices s
            (thinkingFilter (FindMatching s.models requestedModel) thinkingEnabled)).length
              = 0
        · exact (hmat _).mp (List.length_eq_zero.mp h2)
        · rw [if_neg h2] at h
          cases h
    · rintro ⟨hm, hprov⟩
      simp only [SelectProviders]
      rw [if_neg (by simpa [List.length_eq_zero] using hm)]
      rw [if_pos (by rw [(hmat _).mpr hprov]; rfl)]
  · rw [FindMatching]
    by_cases hex : (s.models.filter fun m => m.name == requestedModel).length > 0
    · rw [if_pos hex]
      constructor
      · intro h
        rw [h] at hex
        simp at hex
      · rintro ⟨hname, -⟩
        exfalso
        obtain ⟨m, hm⟩ := List.exists_mem_of_ne_nil _ (List.length_pos.mp hex)
        have := List.mem_filter.mp hm
        exact hname m this.1 (by simpa using this.2)
    · rw [if_neg hex]
      have hexact : ∀ m ∈ s.models, ¬ m.name = requestedModel := by
        intro m hm
        by_contra hname
        have : m ∈ s.models.filter fun m => m.name == requestedModel :=
          List.mem_filter.mpr ⟨hm, by simpa using hname⟩
        have := List.length_pos.mpr (List.ne_nil_of_mem this)
        exact hex this
      rw [List.filter_eq_nil]
      constructor
      · intro h
        refine ⟨hexact, ?_⟩
        intro m hm
        have := h m hm
        simp only [Bool.and_eq_true, bne_iff_ne, ne_eq] at this
        by_cases ha : m.«alias» = ""
        · exact Or.inl ha
        · right
          cases hmatch : MatchAliasS m.«alias» requestedModel with
          | false => rfl
          | true => exact absurd ⟨ha, hmatch⟩ this
      · rintro ⟨-, halias⟩ m hm
        simp only [Bool.and_eq_true, bne_iff_ne, ne_eq, not_and]
        intro ha
        rcases halias m hm with h | h
        · exact absurd h ha
        · rw [h]
          exact Bool.false_ne_true

/-- C9 witness: a selector state with one live candidate yields a
non-empty list. -/
theorem c9_witness : ([exChoiceZeroTPS] : List ProviderChoice) ≠ [] :=
  (c9_select_result_shape exSelectorZeroTPS "X" false).1 [exChoiceZeroTPS] rfl

end AnthropicProxy
